import Mathlib

/-!
SimpleVector (simple_vector.h): a shallow embedding.

The class template `SimpleVector<Type>` is embedded as a record of its three
private members.  Iterators (`Type*`) are offsets from `arr_.Get()`, so
`begin()` is offset `0` and `end()` is offset `size_`.

`size_t` values are natural numbers: every value of `size_`, `capacity_` and
of the sums and products computed from them is bounded by a number of slots
that has actually been allocated (times two, plus two), which is far below
`2^64` on any machine that can hold the buffer, so no operation wraps.

A run that touches a slot outside the owned allocation has no defined result
in C++; such a run ends in `Fault.out_of_bounds`.
-/

namespace SimpleVec

/-- The ways a call can end without a result. -/
inductive Fault where
  /-- The `throw std::out_of_range` in `At` -/
  | out_of_range
  /-- a failed `assert` -/
  | assertion
  /-- an access outside the slots of the owned allocation (undefined behaviour) -/
  | out_of_bounds
  deriving DecidableEq, Repr

/-! ## The owning buffer -/

/-- Modelled from the spec: `array_ptr.h` (class `ArrayPtr`) is not among the
sources.  The spec (sections 2 and 4.1) describes it as exclusively owning a
contiguous block of N "default-constructed-or-uninitialized" slots.  A buffer
is the list of its slots; `fresh i` is the content slot `i` of a new
allocation happens to have. -/
def ArrayPtr_new {T : Type} (n : Nat) (fresh : Nat → T) : List T :=
  (List.range n).map fresh

/-- Modelled from the spec: `ArrayPtr::operator[]` used as a read,
"caller guarantees `i` is within allocated range - no bounds check at this
layer" (section 4.1). -/
def ArrayPtr_get {T : Type} (a : List T) (i : Nat) : Except Fault T :=
  match a[i]? with
  | some x => .ok x
  | none => .error .out_of_bounds

/-- Modelled from the spec: `ArrayPtr::operator[]` (or a dereferenced
iterator) used as a write, under the same contract as `ArrayPtr_get`. -/
def ArrayPtr_set {T : Type} (a : List T) (i : Nat) (x : T) : Except Fault (List T) :=
  if i < a.length then .ok (a.set i x) else .error .out_of_bounds

/-! ## The standard algorithms the class calls -/

/-- Loop of `std::move(first, last, d_first)` / `std::copy` from one buffer
into a different one: `*d_first++ = *first++`, `n` times. -/
def std_move_loop {T : Type} (src : List T) (first : Nat) (dst : List T) (d_first : Nat) :
    Nat → Except Fault (List T)
  | 0 => .ok dst
  | n + 1 =>
    match src[first]? with
    | none => .error .out_of_bounds
    | some x =>
      if d_first < dst.length then
        std_move_loop src (first + 1) (dst.set d_first x) (d_first + 1) n
      else .error .out_of_bounds

/-- The call `std::move(first, last, d_first)` (also `std::copy`) between two
different buffers.  A range with `last` before `first` is not a valid range. -/
def std_move {T : Type} (src : List T) (first last : Nat) (dst : List T) (d_first : Nat) :
    Except Fault (List T) :=
  if first ≤ last then std_move_loop src first dst d_first (last - first)
  else .error .out_of_bounds

/-- Loop of `std::move(first, last, d_first)` when source and destination lie
in the same buffer: front to back, each read sees the earlier writes. -/
def std_move_within_loop {T : Type} (a : List T) (first d_first : Nat) :
    Nat → Except Fault (List T)
  | 0 => .ok a
  | n + 1 =>
    match a[first]? with
    | none => .error .out_of_bounds
    | some x =>
      if d_first < a.length then
        std_move_within_loop (a.set d_first x) (first + 1) (d_first + 1) n
      else .error .out_of_bounds

/-- The call `std::move(first, last, d_first)` inside one buffer. -/
def std_move_within {T : Type} (a : List T) (first last d_first : Nat) :
    Except Fault (List T) :=
  if first ≤ last then std_move_within_loop a first d_first (last - first)
  else .error .out_of_bounds

/-- Loop of `std::move_backward(first, last, d_last)` inside one buffer:
`*(--d_last) = std::move(*(--last))`, `n` times, back to front. -/
def std_move_backward_loop {T : Type} (a : List T) (last d_last : Nat) :
    Nat → Except Fault (List T)
  | 0 => .ok a
  | n + 1 =>
    match last, d_last with
    | l + 1, d + 1 =>
      match a[l]? with
      | none => .error .out_of_bounds
      | some x =>
        if d < a.length then std_move_backward_loop (a.set d x) l d n
        else .error .out_of_bounds
    | _, _ => .error .out_of_bounds

/-- The call `std::move_backward(first, last, d_last)` inside one buffer. -/
def std_move_backward {T : Type} (a : List T) (first last d_last : Nat) :
    Except Fault (List T) :=
  if first ≤ last then std_move_backward_loop a last d_last (last - first)
  else .error .out_of_bounds

/-- Loop of `std::generate(first, last, gen)` for a generator that always
returns `g` (and of `std::fill(first, last, g)`): `*first++ = g`, `n` times. -/
def std_generate_loop {T : Type} (a : List T) (first : Nat) (g : T) :
    Nat → Except Fault (List T)
  | 0 => .ok a
  | n + 1 =>
    if first < a.length then std_generate_loop (a.set first g) (first + 1) g n
    else .error .out_of_bounds

/-- The call `std::generate(first, last, [] { return g; })`. -/
def std_generate {T : Type} (a : List T) (first last : Nat) (g : T) :
    Except Fault (List T) :=
  if first ≤ last then std_generate_loop a first g (last - first)
  else .error .out_of_bounds

/-- The call `std::fill(first, last, value)`. -/
def std_fill {T : Type} (a : List T) (first last : Nat) (value : T) :
    Except Fault (List T) :=
  std_generate a first last value

/-! ## The class -/

/-- The private members of `SimpleVector<Type>` (lines 259-261). -/
structure SimpleVector (T : Type) where
  /-- Member `ArrayPtr<Type> arr_`: the slots of the owned allocation -/
  arr_ : List T
  /-- Member `size_t size_` -/
  size_ : Nat
  /-- Member `size_t capacity_` -/
  capacity_ : Nat
  deriving DecidableEq, Repr

variable {T : Type}

/-- Member `GetSize()` -/
def GetSize (s : SimpleVector T) : Nat := s.size_

/-- Member `GetCapacity()` -/
def GetCapacity (s : SimpleVector T) : Nat := s.capacity_

/-- Member `IsEmpty()` -/
def IsEmpty (s : SimpleVector T) : Bool := s.size_ == 0

/-- Member `begin()`: `arr_.Get()`, offset 0. -/
def begin_ (_s : SimpleVector T) : Nat := 0

/-- Member `end()`: `arr_.Get() + size_`. -/
def end_ (s : SimpleVector T) : Nat := 0 + s.size_

/-- The logical content: the slots at indices `[0, size_)`. -/
def elements (s : SimpleVector T) : List T := s.arr_.take s.size_

/-- The state invariant: `size_ <= capacity_`, and `capacity_` is the number
of slots of the owned allocation. -/
def Inv (s : SimpleVector T) : Prop :=
  s.size_ ≤ s.capacity_ ∧ s.capacity_ = s.arr_.length

instance (s : SimpleVector T) : Decidable (Inv s) := by
  unfold Inv; infer_instance

/-- Constructor `SimpleVector() noexcept = default` (line 35). -/
def SimpleVector.default_ctor : SimpleVector T :=
  { arr_ := [], size_ := 0, capacity_ := 0 }

/-- Member `swap(other)` (lines 151-155): the pair is (this, other) after the call. -/
def swap (this other : SimpleVector T) : SimpleVector T × SimpleVector T :=
  ({ arr_ := other.arr_, size_ := other.size_, capacity_ := other.capacity_ },
   { arr_ := this.arr_, size_ := this.size_, capacity_ := this.capacity_ })

/-- Member `Reserve(new_capacity)` (lines 97-104). -/
def Reserve (s : SimpleVector T) (new_capacity : Nat) (fresh : Nat → T) :
    Except Fault (SimpleVector T) :=
  if s.capacity_ < new_capacity then
    match std_move s.arr_ (begin_ s) (end_ s) (ArrayPtr_new new_capacity fresh) 0 with
    | .ok new_arr => .ok { arr_ := new_arr, size_ := s.size_, capacity_ := new_capacity }
    | .error e => .error e
  else .ok s

/-- Constructor `SimpleVector(ReserveProxyObj capacity)` (lines 37-40). -/
def SimpleVector.reserve_ctor (capacity_to_reserve : Nat) (fresh : Nat → T) :
    Except Fault (SimpleVector T) :=
  match Reserve SimpleVector.default_ctor capacity_to_reserve fresh with
  | .ok s => .ok { s with size_ := 0 }
  | .error e => .error e

/-- Constructor `explicit SimpleVector(size_t size)` (lines 43-48). -/
def SimpleVector.size_ctor [Inhabited T] (size : Nat) (fresh : Nat → T) :
    Except Fault (SimpleVector T) :=
  let s : SimpleVector T := { arr_ := ArrayPtr_new size fresh, size_ := size, capacity_ := size }
  match std_generate s.arr_ (begin_ s) (end_ s) default with
  | .ok a => .ok { s with arr_ := a }
  | .error e => .error e

/-- Constructor `SimpleVector(size_t size, const Type& value)` (lines 51-54). -/
def SimpleVector.fill_ctor [Inhabited T] (size : Nat) (value : T) (fresh : Nat → T) :
    Except Fault (SimpleVector T) :=
  match SimpleVector.size_ctor size fresh with
  | .ok s =>
    match std_fill s.arr_ (begin_ s) (end_ s) value with
    | .ok a => .ok { s with arr_ := a }
    | .error e => .error e
  | .error e => .error e

/-- Constructor `SimpleVector(std::initializer_list<Type> init)` (lines 57-62). -/
def SimpleVector.init_ctor (init : List T) (fresh : Nat → T) :
    Except Fault (SimpleVector T) :=
  let s : SimpleVector T :=
    { arr_ := ArrayPtr_new init.length fresh, size_ := init.length, capacity_ := init.length }
  match std_move init 0 init.length s.arr_ (begin_ s) with
  | .ok a => .ok { s with arr_ := a }
  | .error e => .error e

/-- Constructor `SimpleVector(const SimpleVector& other)` (lines 65-71); a constructor is
never handed the object under construction, so the guard holds. -/
def SimpleVector.copy_ctor [Inhabited T] (other : SimpleVector T) (fresh : Nat → T) :
    Except Fault (SimpleVector T) :=
  match SimpleVector.size_ctor other.size_ fresh with
  | .ok new_arr =>
    match std_move other.arr_ (begin_ other) (end_ other) new_arr.arr_ (begin_ new_arr) with
    | .ok a => .ok (swap SimpleVector.default_ctor { new_arr with arr_ := a }).1
    | .error e => .error e
  | .error e => .error e

/-- Constructor `SimpleVector(SimpleVector&& rhs)` (lines 73-77): the pair is
(the new object, rhs after the call). -/
def SimpleVector.move_ctor (rhs : SimpleVector T) : SimpleVector T × SimpleVector T :=
  ({ arr_ := rhs.arr_, size_ := rhs.size_, capacity_ := rhs.capacity_ },
   { arr_ := [], size_ := 0, capacity_ := 0 })

/-- Member `operator=(const SimpleVector& rhs)` (lines 80-86); `same` says that
`this == &rhs`.  The result is `*this` after the call. -/
def copy_assign [Inhabited T] (this rhs : SimpleVector T) (same : Bool) (fresh : Nat → T) :
    Except Fault (SimpleVector T) :=
  if same then .ok this
  else
    match SimpleVector.copy_ctor rhs fresh with
    | .ok tmp => .ok (swap this tmp).1
    | .error e => .error e

/-- Member `operator=(SimpleVector&& rhs)` (lines 89-95); `same` says that
`this == &rhs`.  The pair is (`*this`, rhs) after the call. -/
def move_assign (this rhs : SimpleVector T) (same : Bool) :
    SimpleVector T × SimpleVector T :=
  if same then (this, this)
  else
    let r := SimpleVector.move_ctor rhs
    ((swap this r.1).1, r.2)

/-- Member `GetNewCapacity(new_size)` (lines 263-267). -/
def GetNewCapacity (s : SimpleVector T) (new_size : Nat) : Nat :=
  if s.capacity_ ≠ 0 then
    if new_size > s.capacity_ then new_size * 2 else s.capacity_
  else 1

/-- Member `IsNotAvailableCapacity(new_size)` (lines 269-271). -/
def IsNotAvailableCapacity (s : SimpleVector T) (new_size : Nat) : Bool :=
  decide (new_size > s.capacity_)

/-- Member `MakeIterToPushBack()` (lines 273-283): the vector after the call and the
returned iterator. -/
def MakeIterToPushBack (s : SimpleVector T) (fresh : Nat → T) :
    Except Fault (SimpleVector T × Nat) :=
  let new_size := s.size_ + 1
  let new_capacity := GetNewCapacity s new_size
  match (if IsNotAvailableCapacity s new_size then Reserve s new_capacity fresh else .ok s) with
  | .ok s1 =>
    let s2 : SimpleVector T := { s1 with size_ := new_size, capacity_ := new_capacity }
    let current_pos := s2.size_ - 1
    .ok (s2, 0 + current_pos)
  | .error e => .error e

/-- Member `PushBack(const Type& item)` and `PushBack(Type&& item)` (lines 108-116):
both store `item` through the iterator of `MakeIterToPushBack`. -/
def PushBack (s : SimpleVector T) (item : T) (fresh : Nat → T) :
    Except Fault (SimpleVector T) :=
  match MakeIterToPushBack s fresh with
  | .ok (s1, it) =>
    match ArrayPtr_set s1.arr_ it item with
    | .ok a => .ok { s1 with arr_ := a }
    | .error e => .error e
  | .error e => .error e

/-- Member `MakeIterToInsert(pos)` (lines 285-297). -/
def MakeIterToInsert (s : SimpleVector T) (pos : Nat) (fresh : Nat → T) :
    Except Fault (SimpleVector T × Nat) :=
  let it := pos
  let current_pos := it - begin_ s
  let new_capacity := GetNewCapacity s (s.size_ + 1)
  match (if IsNotAvailableCapacity s (s.size_ + 1) then Reserve s new_capacity fresh
         else .ok s) with
  | .ok s1 =>
    let s2 : SimpleVector T := { s1 with size_ := s1.size_ + 1 }
    let it := begin_ s2 + current_pos
    match std_move_backward s2.arr_ it (end_ s2) (end_ s2 + 1) with
    | .ok a => .ok ({ s2 with arr_ := a }, it)
    | .error e => .error e
  | .error e => .error e

/-- Member `Insert(ConstIterator pos, Type&& value)` (lines 128-132).  The overload
taking `const Type&` (lines 122-126) calls `PreparedIterToInsert`, which the
class does not declare; it is meant to do the same through
`MakeIterToInsert`. -/
def Insert (s : SimpleVector T) (pos : Nat) (value : T) (fresh : Nat → T) :
    Except Fault (SimpleVector T × Nat) :=
  match MakeIterToInsert s pos fresh with
  | .ok (s1, it) =>
    match ArrayPtr_set s1.arr_ it value with
    | .ok a => .ok ({ s1 with arr_ := a }, it)
    | .error e => .error e
  | .error e => .error e

/-- Member `PopBack()` (lines 135-138). -/
def PopBack (s : SimpleVector T) : Except Fault (SimpleVector T) :=
  if !IsEmpty s then .ok { s with size_ := s.size_ - 1 }
  else .error .assertion

/-- Member `MakeIterForErase(pos)` (lines 299-308). -/
def MakeIterForErase (s : SimpleVector T) (pos : Nat) :
    Except Fault (SimpleVector T × Nat) :=
  let it := pos
  let current_pos := begin_ s + (it - begin_ s)
  if s.size_ > 0 then
    match std_move_within s.arr_ (it + 1) (end_ s) current_pos with
    | .ok a =>
      let s1 : SimpleVector T := { s with arr_ := a, size_ := s.size_ - 1 }
      .ok (s1, begin_ s1 + (it - begin_ s1))
    | .error e => .error e
  else .ok (s, begin_ s + (it - begin_ s))

/-- Member `Erase(ConstIterator pos)` and `Erase(Iterator pos)` (lines 141-148). -/
def Erase (s : SimpleVector T) (pos : Nat) : Except Fault (SimpleVector T × Nat) :=
  MakeIterForErase s pos

/-- Member `operator[](index)` (lines 173-182). -/
def index_op (s : SimpleVector T) (index : Nat) : Except Fault T :=
  if index ≤ s.size_ then ArrayPtr_get s.arr_ index
  else .error .assertion

/-- Member `At(index)` (lines 186-200): what the call returns or throws, and the
vector after the call (the body assigns to no member and to no slot). -/
def At (s : SimpleVector T) (index : Nat) : Except Fault T × SimpleVector T :=
  if index ≥ s.size_ then (.error .out_of_range, s)
  else (ArrayPtr_get s.arr_ index, s)

/-- Member `Clear()` (lines 203-205). -/
def Clear (s : SimpleVector T) : SimpleVector T :=
  { s with size_ := 0 }

/-- Member `Resize(new_size)` (lines 209-221). -/
def Resize [Inhabited T] (s : SimpleVector T) (new_size : Nat) (fresh : Nat → T) :
    Except Fault (SimpleVector T) :=
  if new_size ≤ s.size_ then
    .ok { s with size_ := new_size }
  else if new_size > s.capacity_ then
    match Reserve s new_size fresh with
    | .ok s1 =>
      match std_generate s1.arr_ (begin_ s1 + s1.size_) (end_ s1) default with
      | .ok a => .ok { s1 with arr_ := a, size_ := new_size }
      | .error e => .error e
    | .error e => .error e
  else
    match std_generate s.arr_ (begin_ s + s.size_) (end_ s + new_size) default with
    | .ok a => .ok { s with arr_ := a, size_ := new_size }
    | .error e => .error e

/-- A sequence of `PushBack` calls: each call comes with its item and with the
content of the storage it would allocate. -/
def PushBack_seq (s : SimpleVector T) : List (T × (Nat → T)) → Except Fault (SimpleVector T)
  | [] => .ok s
  | c :: cs =>
    match PushBack s c.1 c.2 with
    | .ok s1 => PushBack_seq s1 cs
    | .error e => .error e

/-- The calls `it = Insert(begin() + p, v); Erase(it);` -/
def Insert_then_Erase (s : SimpleVector T) (p : Nat) (v : T) (fresh : Nat → T) :
    Except Fault (SimpleVector T × Nat) :=
  match Insert s p v fresh with
  | .ok (s1, it) => Erase s1 it
  | .error e => .error e

/-! ## The comparison operators (lines 311-345) -/

/-- Loop of `std::equal`: compare `*first1++` with `*first2++` using the
element type's `==`, `n` times, and stop at the first difference. -/
def std_equal_loop [DecidableEq T] (a : List T) (first1 : Nat) (b : List T) (first2 : Nat) :
    Nat → Except Fault Bool
  | 0 => .ok true
  | n + 1 =>
    match a[first1]?, b[first2]? with
    | some x, some y =>
      if x = y then std_equal_loop a (first1 + 1) b (first2 + 1) n else .ok false
    | _, _ => .error .out_of_bounds

/-- The call `std::equal(first1, last1, first2, last2)` on random-access
iterators: ranges of different length are unequal, ranges of the same length
are compared element by element. -/
def std_equal [DecidableEq T] (a : List T) (first1 last1 : Nat) (b : List T)
    (first2 last2 : Nat) : Except Fault Bool :=
  if first1 ≤ last1 ∧ first2 ≤ last2 then
    if last1 - first1 ≠ last2 - first2 then .ok false
    else std_equal_loop a first1 b first2 (last1 - first1)
  else .error .out_of_bounds

/-- Loop of `std::lexicographical_compare` with the comparator
`lhs < rhs`; `n1` and `n2` are the numbers of elements left in the two
ranges.  The loop runs while both ranges are non-empty; after it the result
is `first1 == last1 && first2 != last2`. -/
def std_lexicographical_compare_loop [LT T] [DecidableRel (fun x y : T => x < y)]
    (a : List T) (first1 : Nat) (b : List T) (first2 : Nat) :
    Nat → Nat → Except Fault Bool
  | 0, 0 => .ok false
  | 0, _ + 1 => .ok true
  | _ + 1, 0 => .ok false
  | n1 + 1, n2 + 1 =>
    match a[first1]?, b[first2]? with
    | some x, some y =>
      if x < y then .ok true
      else if y < x then .ok false
      else std_lexicographical_compare_loop a (first1 + 1) b (first2 + 1) n1 n2
    | _, _ => .error .out_of_bounds

/-- The call `std::lexicographical_compare(first1, last1, first2, last2, comp)`
with `comp(lhs, rhs) = lhs < rhs`. -/
def std_lexicographical_compare [LT T] [DecidableRel (fun x y : T => x < y)]
    (a : List T) (first1 last1 : Nat) (b : List T) (first2 last2 : Nat) :
    Except Fault Bool :=
  if first1 ≤ last1 ∧ first2 ≤ last2 then
    std_lexicographical_compare_loop a first1 b first2 (last1 - first1) (last2 - first2)
  else .error .out_of_bounds

/-- The negation `!r` of the result of a comparison. -/
def negate (r : Except Fault Bool) : Except Fault Bool :=
  match r with
  | .ok x => .ok (!x)
  | .error e => .error e

/-- Operator `operator==` (lines 311-315). -/
def operator_eq [DecidableEq T] (lhs rhs : SimpleVector T) : Except Fault Bool :=
  if GetSize lhs = GetSize rhs then
    std_equal lhs.arr_ (begin_ lhs) (end_ lhs) rhs.arr_ (begin_ rhs) (end_ rhs)
  else .ok false

/-- Operator `operator!=` (lines 317-320). -/
def operator_ne [DecidableEq T] (lhs rhs : SimpleVector T) : Except Fault Bool :=
  negate (operator_eq lhs rhs)

/-- Operator `operator<` (lines 322-330). -/
def operator_lt [LT T] [DecidableRel (fun x y : T => x < y)] (lhs rhs : SimpleVector T) :
    Except Fault Bool :=
  std_lexicographical_compare lhs.arr_ (begin_ lhs) (end_ lhs) rhs.arr_ (begin_ rhs) (end_ rhs)

/-- Operator `operator<=` (lines 332-335). -/
def operator_le [LT T] [DecidableRel (fun x y : T => x < y)] (lhs rhs : SimpleVector T) :
    Except Fault Bool :=
  negate (operator_lt rhs lhs)

/-- Operator `operator>` (lines 337-340). -/
def operator_gt [LT T] [DecidableRel (fun x y : T => x < y)] (lhs rhs : SimpleVector T) :
    Except Fault Bool :=
  operator_lt rhs lhs

/-- Operator `operator>=` (lines 342-345). -/
def operator_ge [LT T] [DecidableRel (fun x y : T => x < y)] (lhs rhs : SimpleVector T) :
    Except Fault Bool :=
  negate (operator_lt lhs rhs)

/-! ## Vectors that differ only in slots beyond the size -/

/-- Two vectors have the same size, the same capacity and the same elements
at the indices `[0, size)`; the slots at `[size, capacity)` may differ. -/
def SameLogical (a b : SimpleVector T) : Prop :=
  a.size_ = b.size_ ∧ a.capacity_ = b.capacity_ ∧ elements a = elements b

/-- Two calls of a `void` member end alike: in the same fault, or they return
and leave vectors that are `SameLogical`. -/
def SameOutcome (x y : Except Fault (SimpleVector T)) : Prop :=
  match x, y with
  | .ok a, .ok b => SameLogical a b
  | .error e, .error f => e = f
  | _, _ => False

/-- Two calls of a member that returns an iterator end alike: in the same
fault, or they return the same iterator and leave vectors that are
`SameLogical`. -/
def SameOutcomeIt (x y : Except Fault (SimpleVector T × Nat)) : Prop :=
  match x, y with
  | .ok a, .ok b => SameLogical a.1 b.1 ∧ a.2 = b.2
  | .error e, .error f => e = f
  | _, _ => False

/-! ## Objects and the buffers they own

The members above take and return the vector as a value: its slots, size and
capacity.  Here the slots live in a store of allocations and an object holds
the address of its buffer, so that two objects can be told to share a buffer
or not.  The store is the list of all allocations made so far; the buffer
allocated `k`-th has address `k`, and an address is never handed out twice.
-/

/-- A `SimpleVector` object as it lies in memory: the members of lines
259-261, with the address held by `arr_` (no address for `nullptr`). -/
structure VectorObject where
  /-- Member `arr_`: the address of the owned buffer -/
  raw_ptr_ : Option Nat
  /-- Member `size_` -/
  size_ : Nat
  /-- Member `capacity_` -/
  capacity_ : Nat
  deriving DecidableEq, Repr

/-- The slots found at an address; none at `nullptr`. -/
def buffer_at (h : List (List T)) (p : Option Nat) : List T :=
  match p with
  | none => []
  | some k => (h[k]?).getD []

/-- The vector an object stands for in a store. -/
def value_of (h : List (List T)) (o : VectorObject) : SimpleVector T :=
  { arr_ := buffer_at h o.raw_ptr_, size_ := o.size_, capacity_ := o.capacity_ }

/-- The address an object holds is one of the store. -/
def Allocated (h : List (List T)) (o : VectorObject) : Prop :=
  ∀ k, o.raw_ptr_ = some k → k < h.length

/-- Constructor `SimpleVector(const SimpleVector& other)` (lines 65-71) on
objects: `SimpleVector new_arr(other.size_)` makes a new allocation,
`std::copy` fills it from the buffer of `other`, and `swap(new_arr)` hands its
address to the object under construction.  `other` is a reference to const. -/
def copy_ctor_object [Inhabited T] (h : List (List T)) (other : VectorObject)
    (fresh : Nat → T) : Except Fault (List (List T) × VectorObject) :=
  match SimpleVector.copy_ctor (value_of h other) fresh with
  | .ok c =>
    .ok (h ++ [c.arr_], { raw_ptr_ := some h.length, size_ := c.size_, capacity_ := c.capacity_ })
  | .error e => .error e

/-- Member `operator=(const SimpleVector& rhs)` (lines 80-86) on objects;
`same` says that `this == &rhs`.  `SimpleVector tmp(rhs)` is the copy
constructor, `swap(tmp)` hands the members of `tmp` to `*this`, and the old
buffer of `*this` goes with `tmp`. -/
def copy_assign_object [Inhabited T] (h : List (List T)) (this rhs : VectorObject)
    (same : Bool) (fresh : Nat → T) : Except Fault (List (List T) × VectorObject) :=
  if same then .ok (h, this)
  else copy_ctor_object h rhs fresh

/-- The calls that change one vector. -/
inductive Mutation (T : Type) where
  /-- The call `Reserve(n)` -/
  | reserve (n : Nat) (fresh : Nat → T)
  /-- The call `PushBack(v)` -/
  | push_back (v : T) (fresh : Nat → T)
  /-- The call `Insert(begin() + p, v)` -/
  | insert (p : Nat) (v : T) (fresh : Nat → T)
  /-- The call `PopBack()` -/
  | pop_back
  /-- The call `Erase(begin() + p)` -/
  | erase (p : Nat)
  /-- The call `Resize(n)` -/
  | resize (n : Nat) (fresh : Nat → T)
  /-- The call `Clear()` -/
  | clear

/-- The vector a call leaves. -/
def Mutation.apply [Inhabited T] (m : Mutation T) (s : SimpleVector T) :
    Except Fault (SimpleVector T) :=
  match m with
  | .reserve n fresh => Reserve s n fresh
  | .push_back v fresh => PushBack s v fresh
  | .insert p v fresh =>
    match Insert s p v fresh with
    | .ok r => .ok r.1
    | .error e => .error e
  | .pop_back => PopBack s
  | .erase p =>
    match Erase s p with
    | .ok r => .ok r.1
    | .error e => .error e
  | .resize n fresh => Resize s n fresh
  | .clear => .ok (Clear s)

/-- A call on an object.  The members reach memory only through `arr_` of
their own object: the call works on the buffer at that address.  When the
number of slots is as before, the buffer is the same allocation and is
written in place; otherwise `Reserve` has swapped in a new allocation, which
gets a new address. -/
def call_member [Inhabited T] (h : List (List T)) (o : VectorObject) (m : Mutation T) :
    Except Fault (List (List T) × VectorObject) :=
  match m.apply (value_of h o) with
  | .error e => .error e
  | .ok s1 =>
    if s1.arr_.length = (buffer_at h o.raw_ptr_).length then
      match o.raw_ptr_ with
      | some k =>
        .ok (h.set k s1.arr_, { o with size_ := s1.size_, capacity_ := s1.capacity_ })
      | none => .ok (h, { o with size_ := s1.size_, capacity_ := s1.capacity_ })
    else
      .ok (h ++ [s1.arr_],
        { raw_ptr_ := some h.length, size_ := s1.size_, capacity_ := s1.capacity_ })

/-- A sequence of calls on one object. -/
def call_members [Inhabited T] (h : List (List T)) (o : VectorObject) :
    List (Mutation T) → Except Fault (List (List T) × VectorObject)
  | [] => .ok (h, o)
  | m :: ms =>
    match call_member h o m with
    | .ok r => call_members r.1 r.2 ms
    | .error e => .error e

/-! ## Concrete vectors -/

/-- A content of fresh storage that differs from every value used below. -/
def ex_fresh : Nat → Nat := fun i => 100 + i

/-- The vector `{1, 2, 3}` as the initializer-list constructor leaves it. -/
def ex_123 : SimpleVector Nat := { arr_ := [1, 2, 3], size_ := 3, capacity_ := 3 }

/-- The vector `{1, 2, 3, 4}` as the initializer-list constructor leaves it. -/
def ex_1234 : SimpleVector Nat := { arr_ := [1, 2, 3, 4], size_ := 4, capacity_ := 4 }

/-- The vector after `SimpleVector<int> v(Reserve(2)); v.PushBack(5);`. -/
def ex_5_cap2 : SimpleVector Nat := { arr_ := [5, 101], size_ := 1, capacity_ := 2 }

/-- The vector `{1, 2}` as the initializer-list constructor leaves it. -/
def ex_12 : SimpleVector Nat := { arr_ := [1, 2], size_ := 2, capacity_ := 2 }

/-- The vector `{2}` as the initializer-list constructor leaves it. -/
def ex_2 : SimpleVector Nat := { arr_ := [2], size_ := 1, capacity_ := 1 }

/-- The vector `{1, 9, 9}` as the initializer-list constructor leaves it. -/
def ex_199 : SimpleVector Nat := { arr_ := [1, 9, 9], size_ := 3, capacity_ := 3 }

/-- The vector after `SimpleVector<int> v(Reserve(1));`. -/
def ex_cap1 : SimpleVector Nat := { arr_ := [100], size_ := 0, capacity_ := 1 }

/-- The vector after `SimpleVector<int> v{1, 2, 3}; v.PushBack(4); v.Resize(1);`. -/
def ex_1_cap8 : SimpleVector Nat :=
  { arr_ := [1, 2, 3, 4, 104, 105, 106, 107], size_ := 1, capacity_ := 8 }

/-- The vector `ex_5_cap2` with another content in its slot beyond the size. -/
def ex_5_cap2_stale : SimpleVector Nat := { arr_ := [5, 999], size_ := 1, capacity_ := 2 }

/-- The object of the vector `ex_5_cap2`, its buffer at address 0. -/
def ex_object : VectorObject := { raw_ptr_ := some 0, size_ := 1, capacity_ := 2 }

/-- The store that holds only the buffer of `ex_object`. -/
def ex_store : List (List Nat) := [[5, 101]]

/-- The vector after `SimpleVector<int> v{1, 2}; v.PopBack();`. -/
def ex_12_popped : SimpleVector Nat := { arr_ := [1, 2], size_ := 1, capacity_ := 2 }

/-- The object of the vector `{1, 2, 3}`, its buffer at address 0. -/
def ex_object_123 : VectorObject := { raw_ptr_ := some 0, size_ := 3, capacity_ := 3 }

/-- The store that holds only the buffer of `ex_object_123`. -/
def ex_store_123 : List (List Nat) := [[1, 2, 3]]

/-! ## The loops -/

theorem std_generate_loop_length {T : Type} (g : T) :
    ∀ (n : Nat) (a : List T) (first : Nat) (b : List T),
      std_generate_loop a first g n = .ok b → b.length = a.length := by
  intro n
  induction n with
  | zero =>
    intro a first b h
    simp only [std_generate_loop, Except.ok.injEq] at h
    rw [← h]
  | succ n ih =>
    intro a first b h
    simp only [std_generate_loop] at h
    split at h
    · have := ih _ _ _ h
      simpa using this
    · cases h

theorem std_generate_loop_ok {T : Type} (g : T) :
    ∀ (n : Nat) (a : List T) (first : Nat), first + n ≤ a.length →
      ∃ b, std_generate_loop a first g n = .ok b ∧ b.length = a.length ∧
        ∀ i, b[i]? = if first ≤ i ∧ i < first + n then some g else a[i]? := by
  intro n
  induction n with
  | zero =>
    intro a first _
    refine ⟨a, rfl, rfl, ?_⟩
    intro i
    have : ¬ (first ≤ i ∧ i < first + 0) := by omega
    rw [if_neg this]
  | succ n ih =>
    intro a first h
    have hlt : first < a.length := by omega
    obtain ⟨b, hb, hlen, hget⟩ := ih (a.set first g) (first + 1) (by simp; omega)
    refine ⟨b, ?_, ?_, ?_⟩
    · simp only [std_generate_loop, hlt, if_true, hb]
    · simpa using hlen
    · intro i
      rw [hget i, List.getElem?_set]
      by_cases h1 : first = i
      · subst h1
        simp [hlt]
      · by_cases h2 : first + 1 ≤ i ∧ i < first + 1 + n
        · have : first ≤ i ∧ i < first + (n + 1) := by omega
          simp [h2, this]
        · have : ¬ (first ≤ i ∧ i < first + (n + 1)) := by omega
          simp [h1, h2, this]

theorem std_generate_loop_fault {T : Type} (g : T) :
    ∀ (n : Nat) (a : List T) (first : Nat), 0 < n → a.length < first + n →
      std_generate_loop a first g n = .error .out_of_bounds := by
  intro n
  induction n with
  | zero => intro a first h0 h; omega
  | succ n ih =>
    intro a first _ h
    simp only [std_generate_loop]
    split
    · apply ih
      · omega
      · simp; omega
    · rfl

theorem std_move_loop_ok {T : Type} (src : List T) :
    ∀ (n : Nat) (first : Nat) (dst : List T) (d : Nat),
      first + n ≤ src.length → d + n ≤ dst.length →
      ∃ b, std_move_loop src first dst d n = .ok b ∧ b.length = dst.length ∧
        ∀ i, b[i]? = if d ≤ i ∧ i < d + n then src[first + (i - d)]? else dst[i]? := by
  intro n
  induction n with
  | zero =>
    intro first dst d _ _
    refine ⟨dst, rfl, rfl, ?_⟩
    intro i
    have : ¬ (d ≤ i ∧ i < d + 0) := by omega
    rw [if_neg this]
  | succ n ih =>
    intro first dst d h1 h2
    have hf : first < src.length := by omega
    have hd : d < dst.length := by omega
    obtain ⟨b, hb, hlen, hget⟩ :=
      ih (first + 1) (dst.set d src[first]) (d + 1) (by omega) (by simp; omega)
    refine ⟨b, ?_, ?_, ?_⟩
    · simp only [std_move_loop, List.getElem?_eq_getElem hf, hd, if_true, hb]
    · simpa using hlen
    · intro i
      rw [hget i, List.getElem?_set]
      by_cases e : d = i
      · subst e
        simp [hd, List.getElem?_eq_getElem hf]
      · by_cases h3 : d + 1 ≤ i ∧ i < d + 1 + n
        · have h4 : d ≤ i ∧ i < d + (n + 1) := by omega
          have h5 : first + 1 + (i - (d + 1)) = first + (i - d) := by omega
          simp [h3, h4, h5]
        · have h4 : ¬ (d ≤ i ∧ i < d + (n + 1)) := by omega
          simp [e, h3, h4]

theorem std_move_within_loop_ok {T : Type} :
    ∀ (n : Nat) (a : List T) (first d : Nat),
      d ≤ first → first + n ≤ a.length →
      ∃ b, std_move_within_loop a first d n = .ok b ∧ b.length = a.length ∧
        ∀ i, b[i]? = if d ≤ i ∧ i < d + n then a[first + (i - d)]? else a[i]? := by
  intro n
  induction n with
  | zero =>
    intro a first d _ _
    refine ⟨a, rfl, rfl, ?_⟩
    intro i
    have : ¬ (d ≤ i ∧ i < d + 0) := by omega
    rw [if_neg this]
  | succ n ih =>
    intro a first d h1 h2
    have hf : first < a.length := by omega
    have hd : d < a.length := by omega
    obtain ⟨b, hb, hlen, hget⟩ :=
      ih (a.set d a[first]) (first + 1) (d + 1) (by omega) (by simp; omega)
    refine ⟨b, ?_, ?_, ?_⟩
    · simp only [std_move_within_loop, List.getElem?_eq_getElem hf, hd, if_true, hb]
    · simpa using hlen
    · intro i
      rw [hget i]
      by_cases e : d = i
      · subst e
        simp [hd, List.getElem?_eq_getElem hf]
      · by_cases h3 : d + 1 ≤ i ∧ i < d + 1 + n
        · have h4 : d ≤ i ∧ i < d + (n + 1) := by omega
          have h5 : first + 1 + (i - (d + 1)) = first + (i - d) := by omega
          have h6 : d ≠ first + (i - d) := by omega
          simp [h3, h4, h5, List.getElem?_set, h6]
        · have h4 : ¬ (d ≤ i ∧ i < d + (n + 1)) := by omega
          simp [e, h3, h4, List.getElem?_set]

theorem std_move_backward_loop_length {T : Type} :
    ∀ (n : Nat) (a : List T) (last d_last : Nat) (b : List T),
      std_move_backward_loop a last d_last n = .ok b → b.length = a.length := by
  intro n
  induction n with
  | zero =>
    intro a last d_last b h
    simp only [std_move_backward_loop, Except.ok.injEq] at h
    rw [← h]
  | succ n ih =>
    intro a last d_last b h
    cases last with
    | zero => simp [std_move_backward_loop] at h
    | succ l =>
      cases d_last with
      | zero => simp [std_move_backward_loop] at h
      | succ d =>
        simp only [std_move_backward_loop] at h
        split at h
        · cases h
        · split at h
          · have := ih _ _ _ _ h
            simpa using this
          · cases h

theorem std_move_backward_loop_ok {T : Type} :
    ∀ (n : Nat) (a : List T) (last d_last : Nat),
      last ≤ d_last → n ≤ last → d_last ≤ a.length →
      ∃ b, std_move_backward_loop a last d_last n = .ok b ∧ b.length = a.length ∧
        ∀ i, b[i]? = if d_last - n ≤ i ∧ i < d_last then a[i - (d_last - last)]?
                     else a[i]? := by
  intro n
  induction n with
  | zero =>
    intro a last d_last _ _ _
    refine ⟨a, by simp [std_move_backward_loop], rfl, ?_⟩
    intro i
    have : ¬ (d_last - 0 ≤ i ∧ i < d_last) := by omega
    rw [if_neg this]
  | succ n ih =>
    intro a last d_last h1 h2 h3
    obtain ⟨l, rfl⟩ : ∃ l, last = l + 1 := ⟨last - 1, by omega⟩
    obtain ⟨d, rfl⟩ : ∃ d, d_last = d + 1 := ⟨d_last - 1, by omega⟩
    have hl : l < a.length := by omega
    have hd : d < a.length := by omega
    obtain ⟨b, hb, hlen, hget⟩ :=
      ih (a.set d a[l]) l d (by omega) (by omega) (by simp; omega)
    refine ⟨b, ?_, ?_, ?_⟩
    · simp only [std_move_backward_loop, List.getElem?_eq_getElem hl, hd, if_true, hb]
    · simpa using hlen
    · intro i
      rw [hget i]
      by_cases e : d = i
      · subst e
        have h4 : ¬ (d - n ≤ d ∧ d < d) := by omega
        have h5 : d + 1 - (n + 1) ≤ d ∧ d < d + 1 := by omega
        have h6 : d - (d + 1 - (l + 1)) = l := by omega
        rw [if_neg h4, if_pos h5, h6, List.getElem?_set, if_pos rfl, if_pos hd,
          List.getElem?_eq_getElem hl]
      · by_cases h4 : d - n ≤ i ∧ i < d
        · have h5 : d + 1 - (n + 1) ≤ i ∧ i < d + 1 := by omega
          have h6 : i - (d + 1 - (l + 1)) = i - (d - l) := by omega
          have h7 : d ≠ i - (d - l) := by omega
          rw [if_pos h4, if_pos h5, h6, List.getElem?_set, if_neg h7]
        · have h5 : ¬ (d + 1 - (n + 1) ≤ i ∧ i < d + 1) := by omega
          rw [if_neg h4, if_neg h5, List.getElem?_set, if_neg e]

/-! ## The buffer and the members -/

theorem ArrayPtr_new_length {T : Type} (n : Nat) (fresh : Nat → T) :
    (ArrayPtr_new n fresh).length = n := by
  simp [ArrayPtr_new]

theorem ArrayPtr_new_getElem? {T : Type} (n : Nat) (fresh : Nat → T) (i : Nat) :
    (ArrayPtr_new n fresh)[i]? = if i < n then some (fresh i) else none := by
  unfold ArrayPtr_new
  rw [List.getElem?_map]
  by_cases h : i < n
  · rw [List.getElem?_range h, if_pos h]; rfl
  · rw [if_neg h, List.getElem?_eq_none (by simpa using h)]; rfl

theorem elements_length (s : SimpleVector T) (h : Inv s) :
    (elements s).length = s.size_ := by
  unfold elements
  rw [List.length_take]
  have := h.1
  have := h.2
  omega

theorem elements_getElem? (s : SimpleVector T) (i : Nat) :
    (elements s)[i]? = if i < s.size_ then s.arr_[i]? else none := by
  unfold elements
  rw [List.getElem?_take]

theorem Reserve_grow (s : SimpleVector T) (n : Nat) (fresh : Nat → T)
    (h : Inv s) (hn : s.capacity_ < n) :
    ∃ b, Reserve s n fresh = .ok { arr_ := b, size_ := s.size_, capacity_ := n } ∧
      b.length = n ∧
      ∀ i, b[i]? = if i < s.size_ then s.arr_[i]?
                   else if i < n then some (fresh i) else none := by
  obtain ⟨h1, h2⟩ := h
  obtain ⟨b, hb, hlen, hget⟩ :=
    std_move_loop_ok s.arr_ s.size_ 0 (ArrayPtr_new n fresh) 0
      (by omega) (by rw [ArrayPtr_new_length]; omega)
  refine ⟨b, ?_, ?_, ?_⟩
  · simp only [Reserve, hn, if_true, std_move, begin_, end_, Nat.zero_add, Nat.zero_le,
      Nat.sub_zero, hb]
  · rw [hlen, ArrayPtr_new_length]
  · intro i
    rw [hget i, ArrayPtr_new_getElem?]
    by_cases hi : i < s.size_
    · have : 0 ≤ i ∧ i < 0 + s.size_ := by omega
      rw [if_pos this, if_pos hi, Nat.zero_add, Nat.sub_zero]
    · have : ¬ (0 ≤ i ∧ i < 0 + s.size_) := by omega
      rw [if_neg this, if_neg hi]

theorem Reserve_keep (s : SimpleVector T) (n : Nat) (fresh : Nat → T)
    (hn : n ≤ s.capacity_) : Reserve s n fresh = .ok s := by
  have : ¬ s.capacity_ < n := by omega
  simp only [Reserve, this, if_false]

/-- What `Reserve` does on a well-formed vector. -/
theorem Reserve_spec (s : SimpleVector T) (n : Nat) (fresh : Nat → T) (h : Inv s) :
    ∃ s1, Reserve s n fresh = .ok s1 ∧ Inv s1 ∧ s1.size_ = s.size_ ∧
      s1.capacity_ = max s.capacity_ n ∧ elements s1 = elements s ∧
      (n ≤ s.capacity_ → s1 = s) := by
  by_cases hn : s.capacity_ < n
  · obtain ⟨b, hb, hlen, hget⟩ := Reserve_grow s n fresh h hn
    refine ⟨_, hb, ?_, rfl, ?_, ?_, ?_⟩
    · have := h.1
      exact ⟨by show s.size_ ≤ n; omega, by show n = b.length; omega⟩
    · show n = max s.capacity_ n
      omega
    · apply List.ext_getElem?
      intro i
      rw [elements_getElem?, elements_getElem?]
      show (if i < s.size_ then b[i]? else none) = _
      by_cases hi : i < s.size_
      · rw [if_pos hi, if_pos hi, hget i, if_pos hi]
      · rw [if_neg hi, if_neg hi]
    · intro h3; omega
  · have hn2 : n ≤ s.capacity_ := by omega
    refine ⟨s, Reserve_keep s n fresh hn2, h, rfl, ?_, rfl, fun _ => rfl⟩
    omega

theorem GetNewCapacity_grow (s : SimpleVector T) (h : Inv s) :
    s.size_ + 1 > s.capacity_ →
      s.capacity_ < GetNewCapacity s (s.size_ + 1) ∧
      s.size_ + 1 ≤ GetNewCapacity s (s.size_ + 1) := by
  intro hg
  have := h.1
  unfold GetNewCapacity
  by_cases h0 : s.capacity_ ≠ 0
  · rw [if_pos h0, if_pos hg]; omega
  · rw [if_neg h0]; omega

theorem GetNewCapacity_keep (s : SimpleVector T) :
    ¬ s.size_ + 1 > s.capacity_ → GetNewCapacity s (s.size_ + 1) = s.capacity_ := by
  intro hg
  unfold GetNewCapacity
  have h0 : s.capacity_ ≠ 0 := by omega
  rw [if_pos h0, if_neg hg]

/-- What `PushBack` does on a well-formed vector. -/
theorem PushBack_spec (s : SimpleVector T) (item : T) (fresh : Nat → T) (h : Inv s) :
    ∃ s1, PushBack s item fresh = .ok s1 ∧ Inv s1 ∧ s1.size_ = s.size_ + 1 ∧
      s1.capacity_ = GetNewCapacity s (s.size_ + 1) ∧
      elements s1 = elements s ++ [item] := by
  have hlenE := elements_length s h
  by_cases hg : s.size_ + 1 > s.capacity_
  · obtain ⟨hc1, hc2⟩ := GetNewCapacity_grow s h hg
    obtain ⟨b, hb, hlen, hget⟩ :=
      Reserve_grow s (GetNewCapacity s (s.size_ + 1)) fresh h hc1
    have hw : s.size_ < b.length := by omega
    refine ⟨{ arr_ := b.set s.size_ item, size_ := s.size_ + 1,
              capacity_ := GetNewCapacity s (s.size_ + 1) }, ?_, ?_, rfl, rfl, ?_⟩
    · simp only [PushBack, MakeIterToPushBack, IsNotAvailableCapacity, hg, decide_True,
        if_true, hb, Nat.add_sub_cancel, Nat.zero_add, ArrayPtr_set, hw]
    · refine ⟨hc2, ?_⟩
      show GetNewCapacity s (s.size_ + 1) = (b.set s.size_ item).length
      rw [List.length_set, hlen]
    · apply List.ext_getElem?
      intro i
      rw [elements_getElem?, List.getElem?_append, elements_getElem?, hlenE]
      show (if i < s.size_ + 1 then (b.set s.size_ item)[i]? else none) = _
      rw [List.getElem?_set]
      by_cases hi : i < s.size_
      · have h1 : i < s.size_ + 1 := by omega
        have h2 : s.size_ ≠ i := by omega
        rw [if_pos h1, if_neg h2, if_pos hi, if_pos hi, hget i, if_pos hi]
      · by_cases he : s.size_ = i
        · have h1 : i < s.size_ + 1 := by omega
          rw [if_pos h1, if_pos he, if_pos hw, if_neg hi, ← he, Nat.sub_self]
          rfl
        · have h1 : ¬ i < s.size_ + 1 := by omega
          rw [if_neg h1, if_neg hi]
          symm
          apply List.getElem?_eq_none
          simp; omega
  · have hc := GetNewCapacity_keep s hg
    have hw : s.size_ < s.arr_.length := by have := h.2; omega
    refine ⟨{ arr_ := s.arr_.set s.size_ item, size_ := s.size_ + 1,
              capacity_ := GetNewCapacity s (s.size_ + 1) }, ?_, ?_, rfl, rfl, ?_⟩
    · simp only [PushBack, MakeIterToPushBack, IsNotAvailableCapacity, hg, decide_False,
        Bool.false_eq_true, if_false, Nat.add_sub_cancel, Nat.zero_add, ArrayPtr_set, hw,
        if_true]
    · rw [hc]
      refine ⟨by show s.size_ + 1 ≤ s.capacity_; omega, ?_⟩
      show s.capacity_ = (s.arr_.set s.size_ item).length
      rw [List.length_set]; exact h.2
    · apply List.ext_getElem?
      intro i
      rw [elements_getElem?, List.getElem?_append, elements_getElem?, hlenE]
      show (if i < s.size_ + 1 then (s.arr_.set s.size_ item)[i]? else none) = _
      rw [List.getElem?_set]
      by_cases hi : i < s.size_
      · have h1 : i < s.size_ + 1 := by omega
        have h2 : s.size_ ≠ i := by omega
        rw [if_pos h1, if_neg h2, if_pos hi, if_pos hi]
      · by_cases he : s.size_ = i
        · have h1 : i < s.size_ + 1 := by omega
          rw [if_pos h1, if_pos he, if_pos hw, if_neg hi, ← he, Nat.sub_self]
          rfl
        · have h1 : ¬ i < s.size_ + 1 := by omega
          rw [if_neg h1, if_neg hi]
          symm
          apply List.getElem?_eq_none
          simp; omega

/-- What `Erase` does on a well-formed vector at the position of an element. -/
theorem Erase_spec (s : SimpleVector T) (p : Nat) (h : Inv s) (hp : p < s.size_) :
    ∃ s1, Erase s p = .ok (s1, p) ∧ Inv s1 ∧ s1.size_ = s.size_ - 1 ∧
      s1.capacity_ = s.capacity_ ∧ elements s1 = (elements s).eraseIdx p := by
  obtain ⟨h1, h2⟩ := h
  obtain ⟨b, hb, hlen, hget⟩ :=
    std_move_within_loop_ok (s.size_ - (p + 1)) s.arr_ (p + 1) p (by omega) (by omega)
  have hpos : s.size_ > 0 := by omega
  have hle : p + 1 ≤ s.size_ := hp
  refine ⟨{ arr_ := b, size_ := s.size_ - 1, capacity_ := s.capacity_ }, ?_, ?_, rfl, rfl, ?_⟩
  · simp only [Erase, MakeIterForErase, begin_, end_, Nat.zero_add, Nat.sub_zero, hpos,
      if_true, std_move_within, hle, hb]
  · exact ⟨by show s.size_ - 1 ≤ s.capacity_; omega, by show s.capacity_ = b.length; omega⟩
  · apply List.ext_getElem?
    intro i
    rw [List.getElem?_eraseIdx, elements_getElem?, elements_getElem?, elements_getElem?]
    show (if i < s.size_ - 1 then b[i]? else none) = _
    rw [hget i]
    by_cases hi : i < s.size_ - 1
    · have hi2 : i + 1 < s.size_ := by omega
      have hi3 : i < s.size_ := by omega
      rw [if_pos hi, if_pos hi2, if_pos hi3]
      by_cases hip : i < p
      · have : ¬ (p ≤ i ∧ i < p + (s.size_ - (p + 1))) := by omega
        rw [if_neg this, if_pos hip]
      · have : p ≤ i ∧ i < p + (s.size_ - (p + 1)) := by omega
        have e : p + 1 + (i - p) = i + 1 := by omega
        rw [if_pos this, if_neg hip, e]
    · rw [if_neg hi]
      by_cases hip : i < p
      · omega
      · have hi2 : ¬ i + 1 < s.size_ := by omega
        rw [if_neg hip, if_neg hi2]

theorem PushBack_seq_append (s : SimpleVector T) (l1 l2 : List (T × (Nat → T))) :
    PushBack_seq s (l1 ++ l2) =
      match PushBack_seq s l1 with
      | .ok s1 => PushBack_seq s1 l2
      | .error e => .error e := by
  induction l1 generalizing s with
  | nil => rfl
  | cons c cs ih =>
    simp only [List.cons_append, PushBack_seq]
    cases PushBack s c.1 c.2 with
    | ok s1 => exact ih s1
    | error e => rfl

/-- What a sequence of `PushBack` calls does on a well-formed vector. -/
theorem PushBack_seq_spec (calls : List (T × (Nat → T))) :
    ∀ s : SimpleVector T, Inv s →
      ∃ s1, PushBack_seq s calls = .ok s1 ∧ Inv s1 ∧ s1.size_ = s.size_ + calls.length ∧
        s.capacity_ ≤ s1.capacity_ ∧ elements s1 = elements s ++ calls.map Prod.fst := by
  induction calls with
  | nil =>
    intro s h
    exact ⟨s, rfl, h, rfl, Nat.le_refl _, by simp⟩
  | cons c cs ih =>
    intro s h
    obtain ⟨s1, e1, i1, z1, c1, l1⟩ := PushBack_spec s c.1 c.2 h
    obtain ⟨s2, e2, i2, z2, c2, l2⟩ := ih s1 i1
    refine ⟨s2, ?_, i2, ?_, ?_, ?_⟩
    · simp only [PushBack_seq, e1, e2]
    · rw [z2, z1, List.length_cons]; omega
    · have : s.capacity_ ≤ s1.capacity_ := by
        rw [c1]
        by_cases hg : s.size_ + 1 > s.capacity_
        · exact Nat.le_of_lt (GetNewCapacity_grow s h hg).1
        · rw [GetNewCapacity_keep s hg]
      omega
    · rw [l2, l1, List.map_cons, List.append_assoc]; rfl

/-- Claim C1. On a well-formed vector `PushBack(v)` (either overload) returns,
and leaves the old elements followed by `v`, the size one larger, and a
capacity that is neither smaller than before nor smaller than the new size.
After the first `i` calls of any sequence of `PushBack` calls on an empty
vector `GetSize()` is `i`, the capacity is at least the size, and the capacity
after `i` calls is at most the capacity after `j >= i` calls. -/
theorem C1_PushBack (s : SimpleVector T) (v : T) (fresh : Nat → T) (h : Inv s) :
    (∃ s1, PushBack s v fresh = .ok s1 ∧ elements s1 = elements s ++ [v] ∧
      GetSize s1 = GetSize s + 1 ∧ GetCapacity s ≤ GetCapacity s1 ∧
      GetSize s1 ≤ GetCapacity s1) ∧
    (∀ (calls : List (T × (Nat → T))) (i j : Nat), i ≤ j → j ≤ calls.length →
      ∃ si sj, PushBack_seq SimpleVector.default_ctor (calls.take i) = .ok si ∧
        PushBack_seq SimpleVector.default_ctor (calls.take j) = .ok sj ∧
        GetSize si = i ∧ GetSize si ≤ GetCapacity si ∧
        GetCapacity si ≤ GetCapacity sj) := by
  constructor
  · obtain ⟨s1, e1, i1, z1, c1, l1⟩ := PushBack_spec s v fresh h
    refine ⟨s1, e1, l1, z1, ?_, i1.1⟩
    show s.capacity_ ≤ s1.capacity_
    rw [c1]
    by_cases hg : s.size_ + 1 > s.capacity_
    · exact Nat.le_of_lt (GetNewCapacity_grow s h hg).1
    · rw [GetNewCapacity_keep s hg]
  · intro calls i j hij hj
    have h0 : Inv (SimpleVector.default_ctor : SimpleVector T) := ⟨Nat.le_refl _, rfl⟩
    obtain ⟨si, ei, ii, zi, _, _⟩ := PushBack_seq_spec (calls.take i) _ h0
    obtain ⟨sj, ej, _, _, cj, _⟩ := PushBack_seq_spec ((calls.take j).drop i) si ii
    have hsplit : calls.take j = calls.take i ++ (calls.take j).drop i := by
      have := List.take_append_drop i (calls.take j)
      rw [List.take_take, Nat.min_eq_left hij] at this
      exact this.symm
    refine ⟨si, sj, ei, ?_, ?_, ii.1, cj⟩
    · rw [hsplit, PushBack_seq_append, ei]
      exact ej
    · show si.size_ = i
      rw [zi, List.length_take]
      show 0 + min i calls.length = i
      omega

/-- Claim C3. On a non-empty well-formed vector, `Erase(begin()+p)` with
`p < size` returns the iterator `begin()+p`, leaves the size one smaller and
the capacity unchanged, and the elements are the old ones with the `p`-th
removed; when the last element was erased the returned iterator is the new
`end()`. -/
theorem C3_Erase (s : SimpleVector T) (p : Nat) (h : Inv s) (hp : p < GetSize s) :
    ∃ s1 it, Erase s p = .ok (s1, it) ∧ it = begin_ s1 + p ∧
      GetSize s1 = GetSize s - 1 ∧ GetCapacity s1 = GetCapacity s ∧
      elements s1 = (elements s).eraseIdx p ∧
      (p = GetSize s - 1 → it = end_ s1) := by
  obtain ⟨s1, e1, _, z1, c1, l1⟩ := Erase_spec s p h hp
  refine ⟨s1, p, e1, ?_, z1, c1, l1, ?_⟩
  · simp [begin_]
  · intro hlast
    show p = 0 + s1.size_
    rw [z1, Nat.zero_add]
    exact hlast

/-- Claim C6. On a well-formed vector `At(i)` throws `std::out_of_range` exactly
when `i >= size`, returns the element at index `i` when `i < size`, and in
both cases leaves the vector as it was. -/
theorem C6_At (s : SimpleVector T) (i : Nat) (h : Inv s) :
    ((At s i).1 = .error .out_of_range ↔ i ≥ GetSize s) ∧
    (i < GetSize s → ∃ x, (At s i).1 = .ok x ∧ (elements s)[i]? = some x) ∧
    (At s i).2 = s := by
  obtain ⟨h1, h2⟩ := h
  by_cases hi : i ≥ s.size_
  · have e : At s i = (.error .out_of_range, s) := by simp only [At, hi, if_true]
    refine ⟨?_, ?_, ?_⟩
    · rw [e]; exact ⟨fun _ => hi, fun _ => rfl⟩
    · intro hlt
      have : i < s.size_ := hlt
      omega
    · rw [e]
  · have hlt : i < s.arr_.length := by omega
    have e : At s i = (.ok s.arr_[i], s) := by
      simp only [At, hi, if_false, ArrayPtr_get, List.getElem?_eq_getElem hlt]
    refine ⟨?_, ?_, ?_⟩
    · rw [e]
      constructor
      · intro hc; cases hc
      · intro hc; exact absurd hc hi
    · intro _
      refine ⟨s.arr_[i], by rw [e], ?_⟩
      rw [elements_getElem?, if_pos (by omega), List.getElem?_eq_getElem hlt]
    · rw [e]

/-- Claim C10. On a well-formed vector `Reserve(n)` returns, leaves the size and
the elements unchanged, and sets the capacity to `max(capacity, n)`: to `n`
when `n > capacity`, and it changes nothing at all when `n <= capacity`. -/
theorem C10_Reserve (s : SimpleVector T) (n : Nat) (fresh : Nat → T) (h : Inv s) :
    ∃ s1, Reserve s n fresh = .ok s1 ∧ GetSize s1 = GetSize s ∧
      elements s1 = elements s ∧ GetCapacity s1 = max (GetCapacity s) n ∧
      (n > GetCapacity s → GetCapacity s1 = n) ∧
      (n ≤ GetCapacity s → s1 = s) := by
  obtain ⟨s1, e1, _, z1, c1, l1, k1⟩ := Reserve_spec s n fresh h
  refine ⟨s1, e1, z1, l1, c1, ?_, k1⟩
  intro hn
  show s1.capacity_ = n
  have : s.capacity_ < n := hn
  rw [c1]
  omega

theorem std_move_backward_loop_fault {T : Type} (a : List T) (l d n : Nat)
    (hd : a.length ≤ d) :
    std_move_backward_loop a (l + 1) (d + 1) (n + 1) = .error .out_of_bounds := by
  have : ¬ d < a.length := by omega
  simp only [std_move_backward_loop]
  split
  · rfl
  · rw [if_neg this]

/-- The buffer `MakeIterToInsert` shifts in: the vector after the optional
`Reserve`. -/
theorem Insert_reserve (s : SimpleVector T) (fresh : Nat → T) (h : Inv s) :
    ∃ s1, (if IsNotAvailableCapacity s (s.size_ + 1) then
            Reserve s (GetNewCapacity s (s.size_ + 1)) fresh else .ok s) = .ok s1 ∧
      Inv s1 ∧ s1.size_ = s.size_ ∧ elements s1 = elements s ∧
      s1.capacity_ = GetNewCapacity s (s.size_ + 1) := by
  by_cases hg : s.size_ + 1 > s.capacity_
  · obtain ⟨hc1, _⟩ := GetNewCapacity_grow s h hg
    obtain ⟨s1, e1, i1, z1, c1, l1, _⟩ :=
      Reserve_spec s (GetNewCapacity s (s.size_ + 1)) fresh h
    refine ⟨s1, ?_, i1, z1, l1, ?_⟩
    · simp only [IsNotAvailableCapacity, hg, decide_True, if_true, e1]
    · rw [c1]; omega
  · refine ⟨s, ?_, h, rfl, rfl, (GetNewCapacity_keep s hg).symm⟩
    simp only [IsNotAvailableCapacity, hg, decide_False, Bool.false_eq_true, if_false]

/-- The call `Insert` leaves the buffer when the capacity is 0 or exactly `size + 1`:
`std::move_backward(it, end(), end() + 1)` runs after `++size_`, so its first
store goes to slot `old size + 1`. -/
theorem Insert_fault (s : SimpleVector T) (p : Nat) (v : T) (fresh : Nat → T)
    (h : Inv s) (hp : p ≤ s.size_)
    (hc : s.capacity_ = 0 ∨ s.capacity_ = s.size_ + 1) :
    Insert s p v fresh = .error .out_of_bounds := by
  obtain ⟨s1, e1, i1, z1, _, c1⟩ := Insert_reserve s fresh h
  have hcap : s1.capacity_ = s.size_ + 1 := by
    rw [c1]
    unfold GetNewCapacity
    rcases hc with hc | hc
    · have : ¬ s.capacity_ ≠ 0 := by omega
      have := h.1
      rw [if_neg ‹¬ s.capacity_ ≠ 0›]; omega
    · have h0 : s.capacity_ ≠ 0 := by omega
      have h2 : ¬ s.size_ + 1 > s.capacity_ := by omega
      rw [if_pos h0, if_neg h2, hc]
  have hlen : s1.arr_.length ≤ s.size_ + 1 := by have := i1.2; omega
  have hle : p ≤ s.size_ + 1 := by omega
  have hn : s.size_ + 1 - p = (s.size_ - p) + 1 := by omega
  simp only [Insert, MakeIterToInsert, e1, begin_, end_, Nat.zero_add, Nat.sub_zero, z1,
    std_move_backward, hle, if_true, hn, std_move_backward_loop_fault _ _ _ _ hlen]

/-- What `Insert` does on a well-formed vector whose capacity is neither 0
nor `size + 1`. -/
theorem Insert_spec (s : SimpleVector T) (p : Nat) (v : T) (fresh : Nat → T)
    (h : Inv s) (hp : p ≤ s.size_)
    (hc : ¬ (s.capacity_ = 0 ∨ s.capacity_ = s.size_ + 1)) :
    ∃ s1, Insert s p v fresh = .ok (s1, p) ∧ Inv s1 ∧ s1.size_ = s.size_ + 1 ∧
      s1.capacity_ = GetNewCapacity s (s.size_ + 1) ∧
      elements s1 = (elements s).take p ++ v :: (elements s).drop p := by
  obtain ⟨s1, e1, i1, z1, l1, c1⟩ := Insert_reserve s fresh h
  have hlenE := elements_length s h
  have hcap : s.size_ + 2 ≤ s1.capacity_ := by
    rw [c1]
    unfold GetNewCapacity
    have := h.1
    have h0 : s.capacity_ ≠ 0 := by omega
    rw [if_pos h0]
    by_cases hg : s.size_ + 1 > s.capacity_
    · rw [if_pos hg]; omega
    · rw [if_neg hg]; omega
  have hlen1 : s1.arr_.length = s1.capacity_ := i1.2.symm
  obtain ⟨b, hb, hlen, hget⟩ :=
    std_move_backward_loop_ok (s.size_ + 1 - p) s1.arr_ (s.size_ + 1) (s.size_ + 1 + 1)
      (by omega) (by omega) (by omega)
  have hle : p ≤ s.size_ + 1 := by omega
  have hpb : p < b.length := by omega
  refine ⟨{ arr_ := b.set p v, size_ := s.size_ + 1, capacity_ := s1.capacity_ },
    ?_, ?_, rfl, c1, ?_⟩
  · simp only [Insert, MakeIterToInsert, e1, begin_, end_, Nat.zero_add, Nat.sub_zero, z1,
      std_move_backward, hle, if_true, hb, ArrayPtr_set, hpb]
  · refine ⟨by show s.size_ + 1 ≤ s1.capacity_; omega, ?_⟩
    show s1.capacity_ = (b.set p v).length
    rw [List.length_set]; omega
  · have hs1 : ∀ i, i < s.size_ → s1.arr_[i]? = s.arr_[i]? := by
      intro i hi
      have := congrArg (fun l => l[i]?) l1
      simp only [elements_getElem?, z1, if_pos hi] at this
      exact this
    apply List.ext_getElem?
    intro i
    rw [elements_getElem?]
    show (if i < s.size_ + 1 then (b.set p v)[i]? else none) = _
    rw [List.getElem?_append, List.length_take, hlenE, Nat.min_eq_left hp, List.getElem?_take,
      List.getElem?_set, hget i]
    by_cases hip : i < p
    · have h1 : i < s.size_ + 1 := by omega
      have h2 : p ≠ i := by omega
      have h3 : ¬ (s.size_ + 1 + 1 - (s.size_ + 1 - p) ≤ i ∧ i < s.size_ + 1 + 1) := by omega
      rw [if_pos h1, if_neg h2, if_neg h3, if_pos hip, if_pos hip, elements_getElem?,
        if_pos (by omega), hs1 i (by omega)]
    · rw [if_neg hip]
      by_cases he : p = i
      · subst he
        have h1 : p < s.size_ + 1 := by omega
        rw [if_pos h1, if_pos rfl, if_pos hpb, Nat.sub_self, List.getElem?_cons_zero]
      · obtain ⟨j, hj⟩ : ∃ j, i - p = j + 1 := ⟨i - p - 1, by omega⟩
        rw [hj, List.getElem?_cons_succ, List.getElem?_drop, elements_getElem?, if_neg he]
        have e2 : p + j = i - 1 := by omega
        rw [e2]
        by_cases h1 : i < s.size_ + 1
        · have h3 : s.size_ + 1 + 1 - (s.size_ + 1 - p) ≤ i ∧ i < s.size_ + 1 + 1 := by omega
          have h4 : i - (s.size_ + 1 + 1 - (s.size_ + 1)) = i - 1 := by omega
          rw [if_pos h1, if_pos h3, h4, if_pos (by omega), hs1 (i - 1) (by omega)]
        · rw [if_neg h1, if_neg (by omega)]

/-- Every run of `Insert` that returns leaves a well-formed vector. -/
theorem Insert_Inv (s : SimpleVector T) (p : Nat) (v : T) (fresh : Nat → T)
    (h : Inv s) (hp : p ≤ s.size_) (r : SimpleVector T × Nat)
    (hr : Insert s p v fresh = .ok r) : Inv r.1 := by
  by_cases hc : s.capacity_ = 0 ∨ s.capacity_ = s.size_ + 1
  · rw [Insert_fault s p v fresh h hp hc] at hr
    cases hr
  · obtain ⟨s1, e1, i1, _⟩ := Insert_spec s p v fresh h hp hc
    rw [e1] at hr
    cases hr
    exact i1

theorem Resize_shrink [Inhabited T] (s : SimpleVector T) (n : Nat) (fresh : Nat → T)
    (hn : n ≤ s.size_) : Resize s n fresh = .ok { s with size_ := n } := by
  simp only [Resize, hn, if_true]

/-- The call `Resize` beyond the capacity: the `std::generate` call runs over the empty
range `[begin() + size_, end())`, so the new elements keep the content of the
fresh storage. -/
theorem Resize_grow [Inhabited T] (s : SimpleVector T) (n : Nat) (fresh : Nat → T)
    (h : Inv s) (hn : s.capacity_ < n) :
    ∃ b, Resize s n fresh = .ok { arr_ := b, size_ := n, capacity_ := n } ∧
      b.length = n ∧
      ∀ i, b[i]? = if i < s.size_ then s.arr_[i]?
                   else if i < n then some (fresh i) else none := by
  obtain ⟨b, hb, hlen, hget⟩ := Reserve_grow s n fresh h hn
  have h1 : ¬ n ≤ s.size_ := by have := h.1; omega
  refine ⟨b, ?_, hlen, hget⟩
  simp only [Resize, h1, if_false, gt_iff_lt, hn, if_true, hb, std_generate, begin_, end_,
    Nat.zero_add, Nat.le_refl, Nat.sub_self, std_generate_loop]

/-- The call `Resize` between size and capacity: `std::generate` runs over
`[begin() + size_, end() + new_size)`, that is over the `new_size` slots from
index `size_` on. -/
theorem Resize_within [Inhabited T] (s : SimpleVector T) (n : Nat) (fresh : Nat → T)
    (h : Inv s) (h1 : s.size_ < n) (h2 : n ≤ s.capacity_) (h3 : s.size_ + n ≤ s.capacity_) :
    ∃ b, Resize s n fresh = .ok { arr_ := b, size_ := n, capacity_ := s.capacity_ } ∧
      b.length = s.arr_.length ∧
      ∀ i, b[i]? = if s.size_ ≤ i ∧ i < s.size_ + n then some default else s.arr_[i]? := by
  obtain ⟨b, hb, hlen, hget⟩ :=
    std_generate_loop_ok (default : T) n s.arr_ s.size_ (by have := h.2; omega)
  have e1 : ¬ n ≤ s.size_ := by omega
  have e2 : ¬ n > s.capacity_ := by omega
  have e3 : s.size_ ≤ s.size_ + n := by omega
  have e4 : s.size_ + n - s.size_ = n := by omega
  refine ⟨b, ?_, hlen, hget⟩
  simp only [Resize, e1, e2, if_false, std_generate, begin_, end_, Nat.zero_add, e3, if_true,
    e4, hb]

theorem Resize_within_fault [Inhabited T] (s : SimpleVector T) (n : Nat) (fresh : Nat → T)
    (h : Inv s) (h1 : s.size_ < n) (h2 : n ≤ s.capacity_) (h3 : s.capacity_ < s.size_ + n) :
    Resize s n fresh = .error .out_of_bounds := by
  have e1 : ¬ n ≤ s.size_ := by omega
  have e2 : ¬ n > s.capacity_ := by omega
  have e3 : s.size_ ≤ s.size_ + n := by omega
  have e4 : s.size_ + n - s.size_ = n := by omega
  have hf := std_generate_loop_fault (default : T) n s.arr_ s.size_ (by omega)
    (by have := h.2; omega)
  simp only [Resize, e1, e2, if_false, std_generate, begin_, end_, Nat.zero_add, e3, if_true,
    e4, hf]

/-- Every run of `Resize` that returns leaves a well-formed vector. -/
theorem Resize_Inv [Inhabited T] (s : SimpleVector T) (n : Nat) (fresh : Nat → T)
    (h : Inv s) (s1 : SimpleVector T) (hr : Resize s n fresh = .ok s1) : Inv s1 := by
  by_cases h1 : n ≤ s.size_
  · rw [Resize_shrink s n fresh h1] at hr
    cases hr
    exact ⟨by show n ≤ s.capacity_; have := h.1; omega, h.2⟩
  · by_cases h2 : s.capacity_ < n
    · obtain ⟨b, hb, hlen, _⟩ := Resize_grow s n fresh h h2
      rw [hb] at hr
      cases hr
      exact ⟨Nat.le_refl _, hlen.symm⟩
    · by_cases h3 : s.size_ + n ≤ s.capacity_
      · obtain ⟨b, hb, hlen, _⟩ := Resize_within s n fresh h (by omega) (by omega) h3
        rw [hb] at hr
        cases hr
        exact ⟨by show n ≤ s.capacity_; omega, by show s.capacity_ = b.length; rw [hlen]; exact h.2⟩
      · rw [Resize_within_fault s n fresh h (by omega) (by omega) (by omega)] at hr
        cases hr

/-! ## The constructors -/

theorem default_ctor_Inv : Inv (SimpleVector.default_ctor : SimpleVector T) :=
  ⟨Nat.le_refl _, rfl⟩

theorem reserve_ctor_spec (n : Nat) (fresh : Nat → T) :
    ∃ s : SimpleVector T, SimpleVector.reserve_ctor n fresh = .ok s ∧ Inv s ∧
      s.size_ = 0 ∧ s.capacity_ = n := by
  obtain ⟨s1, e1, i1, z1, c1, _⟩ :=
    Reserve_spec (SimpleVector.default_ctor : SimpleVector T) n fresh default_ctor_Inv
  refine ⟨{ s1 with size_ := 0 }, ?_, ⟨Nat.zero_le _, i1.2⟩, rfl, ?_⟩
  · simp only [SimpleVector.reserve_ctor, e1]
  · show s1.capacity_ = n
    rw [c1]
    show max 0 n = n
    omega

theorem size_ctor_spec [Inhabited T] (n : Nat) (fresh : Nat → T) :
    ∃ s : SimpleVector T, SimpleVector.size_ctor n fresh = .ok s ∧ Inv s ∧
      s.size_ = n ∧ s.capacity_ = n ∧ elements s = List.replicate n default := by
  obtain ⟨b, hb, hlen, hget⟩ :=
    std_generate_loop_ok (default : T) n (ArrayPtr_new n fresh) 0
      (by rw [ArrayPtr_new_length]; omega)
  rw [ArrayPtr_new_length] at hlen
  refine ⟨{ arr_ := b, size_ := n, capacity_ := n }, ?_, ⟨Nat.le_refl _, hlen.symm⟩,
    rfl, rfl, ?_⟩
  · simp only [SimpleVector.size_ctor, std_generate, begin_, end_, Nat.zero_add, Nat.zero_le,
      if_true, Nat.sub_zero, hb]
  · apply List.ext_getElem?
    intro i
    rw [elements_getElem?, List.getElem?_replicate]
    show (if i < n then b[i]? else none) = _
    by_cases hi : i < n
    · rw [if_pos hi, if_pos hi, hget i, if_pos (by omega)]
    · rw [if_neg hi, if_neg hi]

theorem fill_ctor_spec [Inhabited T] (n : Nat) (value : T) (fresh : Nat → T) :
    ∃ s : SimpleVector T, SimpleVector.fill_ctor n value fresh = .ok s ∧ Inv s ∧
      s.size_ = n ∧ s.capacity_ = n ∧ elements s = List.replicate n value := by
  obtain ⟨s0, e0, i0, z0, c0, _⟩ := size_ctor_spec (T := T) n fresh
  obtain ⟨b, hb, hlen, hget⟩ :=
    std_generate_loop_ok value s0.size_ s0.arr_ 0 (by have := i0.1; have := i0.2; omega)
  refine ⟨{ s0 with arr_ := b }, ?_, ⟨i0.1, by show s0.capacity_ = b.length; rw [hlen]; exact i0.2⟩,
    z0, c0, ?_⟩
  · simp only [SimpleVector.fill_ctor, e0, std_fill, std_generate, begin_, end_, Nat.zero_add,
      Nat.zero_le, if_true, Nat.sub_zero, hb]
  · apply List.ext_getElem?
    intro i
    rw [elements_getElem?, List.getElem?_replicate]
    show (if i < s0.size_ then b[i]? else none) = _
    rw [z0] at hget ⊢
    by_cases hi : i < n
    · rw [if_pos hi, if_pos hi, hget i, if_pos (by omega)]
    · rw [if_neg hi, if_neg hi]

theorem init_ctor_spec (init : List T) (fresh : Nat → T) :
    ∃ s : SimpleVector T, SimpleVector.init_ctor init fresh = .ok s ∧ Inv s ∧
      s.size_ = init.length ∧ s.capacity_ = init.length ∧ elements s = init := by
  obtain ⟨b, hb, hlen, hget⟩ :=
    std_move_loop_ok init init.length 0 (ArrayPtr_new init.length fresh) 0
      (by omega) (by rw [ArrayPtr_new_length]; omega)
  rw [ArrayPtr_new_length] at hlen
  refine ⟨{ arr_ := b, size_ := init.length, capacity_ := init.length }, ?_,
    ⟨Nat.le_refl _, hlen.symm⟩, rfl, rfl, ?_⟩
  · simp only [SimpleVector.init_ctor, std_move, begin_, Nat.zero_le, if_true, Nat.sub_zero, hb]
  · apply List.ext_getElem?
    intro i
    rw [elements_getElem?]
    show (if i < init.length then b[i]? else none) = _
    by_cases hi : i < init.length
    · rw [if_pos hi, hget i, if_pos (by omega), Nat.zero_add, Nat.sub_zero]
    · rw [if_neg hi]
      symm
      apply List.getElem?_eq_none
      omega

theorem copy_ctor_spec [Inhabited T] (other : SimpleVector T) (fresh : Nat → T)
    (h : Inv other) :
    ∃ s : SimpleVector T, SimpleVector.copy_ctor other fresh = .ok s ∧ Inv s ∧
      s.size_ = other.size_ ∧ s.capacity_ = other.size_ ∧ elements s = elements other := by
  obtain ⟨s0, e0, i0, z0, c0, _⟩ := size_ctor_spec (T := T) other.size_ fresh
  obtain ⟨b, hb, hlen, hget⟩ :=
    std_move_loop_ok other.arr_ other.size_ 0 s0.arr_ 0
      (by have := h.1; have := h.2; omega) (by have := i0.2; omega)
  refine ⟨{ arr_ := b, size_ := s0.size_, capacity_ := s0.capacity_ }, ?_,
    ⟨i0.1, by show s0.capacity_ = b.length; rw [hlen]; exact i0.2⟩, z0, c0, ?_⟩
  · simp only [SimpleVector.copy_ctor, e0, std_move, begin_, end_, Nat.zero_add, Nat.zero_le,
      if_true, Nat.sub_zero, hb, swap]
  · apply List.ext_getElem?
    intro i
    rw [elements_getElem?, elements_getElem?]
    show (if i < s0.size_ then b[i]? else none) = _
    rw [z0]
    by_cases hi : i < other.size_
    · rw [if_pos hi, if_pos hi, hget i, if_pos (by omega), Nat.zero_add, Nat.sub_zero]
    · rw [if_neg hi, if_neg hi]

theorem PopBack_spec (s : SimpleVector T) (h : Inv s) (hne : s.size_ ≠ 0) :
    PopBack s = .ok { s with size_ := s.size_ - 1 } ∧
      Inv ({ s with size_ := s.size_ - 1 } : SimpleVector T) := by
  refine ⟨?_, ⟨by show s.size_ - 1 ≤ s.capacity_; have := h.1; omega, h.2⟩⟩
  simp [PopBack, IsEmpty, hne]

/-- Where the state invariant is kept.  Every constructor returns a vector with `size <= capacity` whose
`capacity_` is the number of allocated slots.  From such a vector, `Reserve`,
`PushBack`, `PopBack` (non-empty), `Erase` (at an element), `Clear`, `swap`
and both assignments always return and leave such a vector again.  So does
every call of `Insert` (at a position in `[0, size]`) and of `Resize` that
returns; `Insert` returns unless the capacity is 0 or `size + 1`, `Resize`
unless `size < new_size <= capacity < size + new_size` (in those cases the
call stores outside the buffer and has no state after it). -/
theorem Inv_where_defined [Inhabited T] (s other : SimpleVector T) (h : Inv s) (ho : Inv other) :
    Inv (SimpleVector.default_ctor : SimpleVector T) ∧
    (∀ n (fresh : Nat → T), ∃ r, SimpleVector.reserve_ctor n fresh = .ok r ∧ Inv r) ∧
    (∀ n (fresh : Nat → T), ∃ r, SimpleVector.size_ctor n fresh = .ok r ∧ Inv r) ∧
    (∀ n (v : T) (fresh : Nat → T), ∃ r, SimpleVector.fill_ctor n v fresh = .ok r ∧ Inv r) ∧
    (∀ (init : List T) (fresh : Nat → T), ∃ r, SimpleVector.init_ctor init fresh = .ok r ∧ Inv r) ∧
    (∀ fresh, ∃ r, SimpleVector.copy_ctor s fresh = .ok r ∧ Inv r) ∧
    (Inv (SimpleVector.move_ctor s).1 ∧ Inv (SimpleVector.move_ctor s).2) ∧
    (∀ n fresh, ∃ r, Reserve s n fresh = .ok r ∧ Inv r) ∧
    (∀ v fresh, ∃ r, PushBack s v fresh = .ok r ∧ Inv r) ∧
    (∀ p v fresh, p ≤ GetSize s →
      (∀ r, Insert s p v fresh = .ok r → Inv r.1) ∧
      (¬ (GetCapacity s = 0 ∨ GetCapacity s = GetSize s + 1) →
        ∃ r, Insert s p v fresh = .ok r)) ∧
    (IsEmpty s = false → ∃ r, PopBack s = .ok r ∧ Inv r) ∧
    (∀ p, p < GetSize s → ∃ r, Erase s p = .ok r ∧ Inv r.1) ∧
    (∀ n fresh,
      (∀ r, Resize s n fresh = .ok r → Inv r) ∧
      (¬ (GetSize s < n ∧ n ≤ GetCapacity s ∧ GetCapacity s < GetSize s + n) →
        ∃ r, Resize s n fresh = .ok r)) ∧
    Inv (Clear s) ∧
    (Inv (swap s other).1 ∧ Inv (swap s other).2) ∧
    (∀ same fresh, ∃ r, copy_assign s other same fresh = .ok r ∧ Inv r) ∧
    (∀ same, Inv (move_assign s other same).1 ∧ Inv (move_assign s other same).2) := by
  have hswap : ∀ a b : SimpleVector T, Inv a → Inv b → Inv (swap a b).1 ∧ Inv (swap a b).2 :=
    fun a b ha hb => ⟨hb, ha⟩
  refine ⟨default_ctor_Inv, ?_, ?_, ?_, ?_, ?_, ⟨h, default_ctor_Inv⟩, ?_, ?_, ?_, ?_, ?_, ?_,
    ⟨Nat.zero_le _, h.2⟩, hswap s other h ho, ?_, ?_⟩
  · intro n fresh
    obtain ⟨r, e, i, _⟩ := reserve_ctor_spec (T := T) n fresh
    exact ⟨r, e, i⟩
  · intro n fresh
    obtain ⟨r, e, i, _⟩ := size_ctor_spec (T := T) n fresh
    exact ⟨r, e, i⟩
  · intro n v fresh
    obtain ⟨r, e, i, _⟩ := fill_ctor_spec n v fresh
    exact ⟨r, e, i⟩
  · intro init fresh
    obtain ⟨r, e, i, _⟩ := init_ctor_spec init fresh
    exact ⟨r, e, i⟩
  · intro fresh
    obtain ⟨r, e, i, _⟩ := copy_ctor_spec s fresh h
    exact ⟨r, e, i⟩
  · intro n fresh
    obtain ⟨r, e, i, _⟩ := Reserve_spec s n fresh h
    exact ⟨r, e, i⟩
  · intro v fresh
    obtain ⟨r, e, i, _⟩ := PushBack_spec s v fresh h
    exact ⟨r, e, i⟩
  · intro p v fresh hp
    refine ⟨fun r hr => Insert_Inv s p v fresh h hp r hr, ?_⟩
    intro hc
    obtain ⟨r, e, _⟩ := Insert_spec s p v fresh h hp hc
    exact ⟨_, e⟩
  · intro hne
    have hz : s.size_ ≠ 0 := by
      intro hz
      simp [IsEmpty, hz] at hne
    obtain ⟨e, i⟩ := PopBack_spec s h hz
    exact ⟨_, e, i⟩
  · intro p hp
    obtain ⟨r, e, i, _⟩ := Erase_spec s p h hp
    exact ⟨_, e, i⟩
  · intro n fresh
    refine ⟨fun r hr => Resize_Inv s n fresh h r hr, ?_⟩
    intro hc
    have hc2 : ¬ (s.size_ < n ∧ n ≤ s.capacity_ ∧ s.capacity_ < s.size_ + n) := hc
    by_cases h1 : n ≤ s.size_
    · exact ⟨_, Resize_shrink s n fresh h1⟩
    · by_cases h2 : s.capacity_ < n
      · obtain ⟨b, hb, _⟩ := Resize_grow s n fresh h h2
        exact ⟨_, hb⟩
      · obtain ⟨b, hb, _⟩ :=
          Resize_within s n fresh h (by omega) (by omega) (by omega)
        exact ⟨_, hb⟩
  · intro same fresh
    cases same with
    | true => exact ⟨s, rfl, h⟩
    | false =>
      obtain ⟨r, e, i, _⟩ := copy_ctor_spec other fresh ho
      refine ⟨(swap s r).1, ?_, (hswap s r h i).1⟩
      simp only [copy_assign, Bool.false_eq_true, if_false, e]
  · intro same
    cases same with
    | true => exact ⟨h, h⟩
    | false => exact ⟨ho, default_ctor_Inv⟩

/-! ## The claims at concrete vectors -/

/-- The initializer-list constructor on `{1, 2, 3}` gives `ex_123`. -/
theorem ex_123_ctor (fresh : Nat → Nat) : SimpleVector.init_ctor [1, 2, 3] fresh = .ok ex_123 :=
  rfl

/-- The initializer-list constructor on `{1, 2, 3, 4}` gives `ex_1234`. -/
theorem ex_1234_ctor (fresh : Nat → Nat) :
    SimpleVector.init_ctor [1, 2, 3, 4] fresh = .ok ex_1234 :=
  rfl

/-- The reserving constructor with 2, then `PushBack(5)`, gives `ex_5_cap2`. -/
theorem ex_5_cap2_ctor :
    (match SimpleVector.reserve_ctor 2 ex_fresh with
     | .ok s => PushBack s 5 ex_fresh
     | .error e => .error e) = .ok ex_5_cap2 :=
  rfl

/-- Claim C1 at `{1, 2, 3}` and `PushBack(4)`. -/
theorem C1_PushBack_witness :
    Inv ex_123 ∧
    ∃ s1, PushBack ex_123 4 ex_fresh = .ok s1 ∧ elements s1 = elements ex_123 ++ [4] ∧
      GetSize s1 = GetSize ex_123 + 1 ∧ GetCapacity ex_123 ≤ GetCapacity s1 ∧
      GetSize s1 ≤ GetCapacity s1 :=
  ⟨by decide, (C1_PushBack ex_123 4 ex_fresh (by decide)).1⟩

/-- Claim C2 at a failing input.  `SimpleVector<int> v; v.Insert(v.begin(), 7);`
`Reserve(1)` allocates one slot, `++size_` makes `end()` offset 1, and
`std::move_backward(it, end(), end() + 1)` stores slot 0 into slot 1, outside
the one-slot buffer: the call has no defined result, where the claim says it
yields the vector `{7}`. -/
theorem C2_Insert_empty_leaves_buffer :
    Reserve (SimpleVector.default_ctor : SimpleVector Nat) 1 ex_fresh =
      .ok { arr_ := [100], size_ := 0, capacity_ := 1 } ∧
    std_move_backward [100] 0 1 2 = .error .out_of_bounds ∧
    Insert (SimpleVector.default_ctor : SimpleVector Nat) 0 7 ex_fresh =
      .error .out_of_bounds :=
  ⟨rfl, rfl, rfl⟩

/-- Claim C3 at `{1, 2, 3, 4}` and `Erase(begin() + 1)`: the elements are
`{1, 3, 4}` and the size is 3. -/
theorem C3_Erase_witness :
    Inv ex_1234 ∧ 1 < GetSize ex_1234 ∧
    ∃ s1 it, Erase ex_1234 1 = .ok (s1, it) ∧ it = begin_ s1 + 1 ∧
      GetSize s1 = 3 ∧ GetCapacity s1 = 4 ∧ elements s1 = [1, 3, 4] := by
  obtain ⟨s1, it, e, hit, z, c, l, _⟩ := C3_Erase ex_1234 1 (by decide) (by decide)
  exact ⟨by decide, by decide, s1, it, e, hit, z, c, l⟩

/-- Claim C5 at a failing input.  `SimpleVector<int> v{1, 2, 3}; v.PushBack(4);`
and likewise `v.Insert(v.begin() + 1, 7)`: `GetNewCapacity` returns
`new_size * 2`, so the capacity becomes `(3 + 1) * 2 = 8`, where the claim
(and the comments above `PushBack` and `Insert`) say it is doubled to 6. -/
theorem C5_growth_failing_input :
    GetNewCapacity ex_123 (GetSize ex_123 + 1) = 8 ∧
    PushBack ex_123 4 ex_fresh =
      .ok { arr_ := [1, 2, 3, 4, 104, 105, 106, 107], size_ := 4, capacity_ := 8 } ∧
    Insert ex_123 1 7 ex_fresh =
      .ok ({ arr_ := [1, 7, 2, 3, 103, 105, 106, 107], size_ := 4, capacity_ := 8 }, 1) :=
  ⟨rfl, rfl, rfl⟩

/-- Claim C6 at `{1, 2, 3}`: `At(5)` throws `std::out_of_range`, `At(1)` is 2. -/
theorem C6_At_witness :
    Inv ex_123 ∧ (At ex_123 5).1 = .error .out_of_range ∧ (At ex_123 1).1 = .ok 2 ∧
    (At ex_123 5).2 = ex_123 := by
  have h5 := C6_At ex_123 5 (by decide)
  exact ⟨by decide, h5.1.2 (by decide), rfl, h5.2.2⟩

/-- Claim C7 at a failing input.
`SimpleVector<int> v(Reserve(2)); v.PushBack(5); v.Erase(v.Insert(v.begin(), 7));`
the vector has size 1 and capacity 2, `Insert` does not grow it, and
`std::move_backward(it, end(), end() + 1)` stores into slot 2 of the two-slot
buffer: the call has no defined result, where the claim says the pair of
calls gives back the vector `{5}`. -/
theorem C7_Insert_Erase_failing_input :
    std_move_backward ex_5_cap2.arr_ 0 2 3 = .error .out_of_bounds ∧
    Insert_then_Erase ex_5_cap2 0 7 ex_fresh = .error .out_of_bounds :=
  ⟨rfl, rfl⟩

/-- Claim C8 at a failing input.  `SimpleVector<int> v{1, 2, 3}; v.Resize(5);`
with fresh storage that holds 100, 101, ...: `Reserve(5)` moves the three
elements, `std::generate(begin() + size_, end(), ...)` runs over an empty
range because `size_` is still 3, and the elements at indices 3 and 4 are
103 and 104, where the claim says they are the default value 0. -/
theorem C8_Resize_grow_failing_input :
    std_generate [1, 2, 3, 103, 104] (begin_ ex_123 + 3) (end_ ex_123) (default : Nat) =
      .ok [1, 2, 3, 103, 104] ∧
    Resize ex_123 5 ex_fresh =
      .ok { arr_ := [1, 2, 3, 103, 104], size_ := 5, capacity_ := 5 } :=
  ⟨rfl, rfl⟩

/-- Claim C9 at a failing input.
`SimpleVector<int> v{1, 2, 3}; v.Resize(1); v.Resize(3);` the first call
leaves size 1 and capacity 3; the second runs
`std::generate(begin() + size_, end() + new_size, ...)`, that is over the
slots 1, 2 and 3, and slot 3 is outside the three-slot buffer: the call has
no defined result, where the claim says it gives `{1, 0, 0}`. -/
theorem C9_Resize_back_failing_input :
    Resize ex_123 1 ex_fresh = .ok { arr_ := [1, 2, 3], size_ := 1, capacity_ := 3 } ∧
    Resize ({ arr_ := [1, 2, 3], size_ := 1, capacity_ := 3 } : SimpleVector Nat) 3 ex_fresh =
      .error .out_of_bounds :=
  ⟨rfl, rfl⟩

/-- Claim C10 at `{1, 2, 3}` and `Reserve(5)`. -/
theorem C10_Reserve_witness :
    Inv ex_123 ∧
    ∃ s1, Reserve ex_123 5 ex_fresh = .ok s1 ∧ GetSize s1 = 3 ∧
      elements s1 = [1, 2, 3] ∧ GetCapacity s1 = 5 := by
  obtain ⟨s1, e, z, l, c, _, _⟩ := C10_Reserve ex_123 5 ex_fresh (by decide)
  exact ⟨by decide, s1, e, z, l, c⟩

/-- On a full vector of capacity `c > 0` the capacity after `PushBack` is
`2 * c + 2`: `GetNewCapacity` doubles the new size, not the capacity. -/
theorem PushBack_full_capacity (s : SimpleVector T) (item : T) (fresh : Nat → T)
    (h : Inv s) (hfull : s.size_ = s.capacity_) (hpos : s.capacity_ ≠ 0) :
    ∃ s1, PushBack s item fresh = .ok s1 ∧ s1.capacity_ = 2 * s.capacity_ + 2 := by
  obtain ⟨s1, e1, _, _, c1, _⟩ := PushBack_spec s item fresh h
  refine ⟨s1, e1, ?_⟩
  rw [c1]
  unfold GetNewCapacity
  have hg : s.size_ + 1 > s.capacity_ := by omega
  rw [if_pos hpos, if_pos hg]
  omega

/-- Where `Insert` stays inside the buffer, erasing at the returned iterator
gives back the old size and the old elements. -/
theorem Insert_then_Erase_spec (s : SimpleVector T) (p : Nat) (v : T) (fresh : Nat → T)
    (h : Inv s) (hp : p ≤ s.size_)
    (hc : ¬ (s.capacity_ = 0 ∨ s.capacity_ = s.size_ + 1)) :
    ∃ s2, Insert_then_Erase s p v fresh = .ok (s2, p) ∧ s2.size_ = s.size_ ∧
      elements s2 = elements s := by
  obtain ⟨s1, e1, i1, z1, _, l1⟩ := Insert_spec s p v fresh h hp hc
  obtain ⟨s2, e2, _, z2, _, l2⟩ := Erase_spec s1 p i1 (by omega)
  have hlenE := elements_length s h
  refine ⟨s2, ?_, by omega, ?_⟩
  · simp only [Insert_then_Erase, e1, e2]
  · rw [l2, l1, List.eraseIdx_eq_take_drop_succ]
    have hl : ((elements s).take p).length = p := by
      rw [List.length_take, hlenE]; omega
    have e3 : List.take p (List.take p (elements s) ++ v :: List.drop p (elements s)) =
        List.take p (elements s) := by
      rw [List.take_append_of_le_length (by omega), List.take_take, Nat.min_self]
    have e4 : List.drop (p + 1) (List.take p (elements s) ++ v :: List.drop p (elements s)) =
        List.drop p (elements s) := by
      have : p + 1 = ((elements s).take p ++ [v]).length := by
        rw [List.length_append, hl]; rfl
      rw [show List.take p (elements s) ++ v :: List.drop p (elements s) =
        (List.take p (elements s) ++ [v]) ++ List.drop p (elements s) by simp, this,
        List.drop_left]
    rw [e3, e4, List.take_append_drop]

/-! ## The comparison operators -/

theorem slice_succ {T : Type} (a : List T) (i n : Nat) (h : i < a.length) :
    (a.drop i).take (n + 1) = a[i] :: (a.drop (i + 1)).take n := by
  rw [List.drop_eq_getElem_cons h, List.take_succ_cons]

theorem elements_eq_slice (s : SimpleVector T) :
    elements s = (s.arr_.drop 0).take s.size_ := by
  rw [List.drop_zero]; rfl

theorem not_lex_cons_of_gt [LinearOrder T] (x y : T) (l1 l2 : List T) (h : y < x) :
    ¬ List.Lex (fun x y : T => x < y) (x :: l1) (y :: l2) := by
  intro hl
  cases hl with
  | cons _ => exact lt_irrefl _ h
  | rel h3 => exact lt_asymm h h3

theorem std_equal_loop_spec [DecidableEq T] (a b : List T) :
    ∀ (n i j : Nat), i + n ≤ a.length → j + n ≤ b.length →
      ∃ r, std_equal_loop a i b j n = .ok r ∧
        (r = true ↔ (a.drop i).take n = (b.drop j).take n) := by
  intro n
  induction n with
  | zero =>
    intro i j _ _
    exact ⟨true, rfl, by simp⟩
  | succ n ih =>
    intro i j hi hj
    have hi2 : i < a.length := by omega
    have hj2 : j < b.length := by omega
    rw [slice_succ a i n hi2, slice_succ b j n hj2]
    by_cases e : a[i] = b[j]
    · obtain ⟨r, hr, hiff⟩ := ih (i + 1) (j + 1) (by omega) (by omega)
      refine ⟨r, ?_, ?_⟩
      · simp only [std_equal_loop, List.getElem?_eq_getElem hi2, List.getElem?_eq_getElem hj2,
          e, if_true, hr]
      · rw [hiff, e]
        constructor
        · intro h; rw [h]
        · intro h; exact (List.cons.inj h).2
    · refine ⟨false, ?_, ?_⟩
      · simp only [std_equal_loop, List.getElem?_eq_getElem hi2, List.getElem?_eq_getElem hj2,
          e, if_false]
      · constructor
        · intro h; cases h
        · intro h; exact absurd (List.cons.inj h).1 e

theorem std_lexicographical_compare_loop_spec [LinearOrder T] (a b : List T) :
    ∀ (n1 n2 i j : Nat), i + n1 ≤ a.length → j + n2 ≤ b.length →
      ∃ r, std_lexicographical_compare_loop a i b j n1 n2 = .ok r ∧
        (r = true ↔ List.Lex (fun x y : T => x < y) ((a.drop i).take n1)
          ((b.drop j).take n2)) := by
  intro n1
  induction n1 with
  | zero =>
    intro n2 i j _ hj
    cases n2 with
    | zero =>
      refine ⟨false, rfl, ?_⟩
      constructor
      · intro h; cases h
      · intro h; simp at h
    | succ n2 =>
      have hj2 : j < b.length := by omega
      refine ⟨true, rfl, ?_⟩
      rw [slice_succ b j n2 hj2, List.take_zero]
      exact ⟨fun _ => List.Lex.nil, fun _ => rfl⟩
  | succ n1 ih =>
    intro n2 i j hi hj
    have hi2 : i < a.length := by omega
    cases n2 with
    | zero =>
      refine ⟨false, rfl, ?_⟩
      rw [List.take_zero]
      constructor
      · intro h; cases h
      · intro h; exact absurd h (List.Lex.not_nil_right _ _)
    | succ n2 =>
      have hj2 : j < b.length := by omega
      rw [slice_succ a i n1 hi2, slice_succ b j n2 hj2]
      by_cases h1 : a[i] < b[j]
      · refine ⟨true, ?_, ?_⟩
        · simp only [std_lexicographical_compare_loop, List.getElem?_eq_getElem hi2,
            List.getElem?_eq_getElem hj2, h1, if_true]
        · exact ⟨fun _ => List.Lex.rel h1, fun _ => rfl⟩
      · by_cases h2 : b[j] < a[i]
        · refine ⟨false, ?_, ?_⟩
          · simp only [std_lexicographical_compare_loop, List.getElem?_eq_getElem hi2,
              List.getElem?_eq_getElem hj2, h1, h2, if_true, if_false]
          · constructor
            · intro h; cases h
            · intro h; exact absurd h (not_lex_cons_of_gt _ _ _ _ h2)
        · have e : a[i] = b[j] := le_antisymm (not_lt.mp h2) (not_lt.mp h1)
          obtain ⟨r, hr, hiff⟩ := ih n2 (i + 1) (j + 1) (by omega) (by omega)
          refine ⟨r, ?_, ?_⟩
          · simp only [std_lexicographical_compare_loop, List.getElem?_eq_getElem hi2,
              List.getElem?_eq_getElem hj2, h1, h2, if_false, hr]
          · rw [hiff, e]
            exact List.Lex.cons_iff.symm

/-- What `operator==` computes on well-formed vectors. -/
theorem operator_eq_spec [DecidableEq T] (a b : SimpleVector T) (ha : Inv a) (hb : Inv b) :
    ∃ r, operator_eq a b = .ok r ∧
      (r = true ↔ (a.size_ = b.size_ ∧ elements a = elements b)) := by
  by_cases hs : a.size_ = b.size_
  · obtain ⟨r, hr, hiff⟩ := std_equal_loop_spec a.arr_ b.arr_ a.size_ 0 0
      (by have := ha.1; have := ha.2; omega) (by have := hb.1; have := hb.2; omega)
    refine ⟨r, ?_, ?_⟩
    · have h1 : ¬ (a.size_ ≠ b.size_) := by omega
      simp only [operator_eq, GetSize, hs, if_true, std_equal, begin_, end_, Nat.zero_add,
        Nat.zero_le, and_self, Nat.sub_zero, ne_eq, not_true_eq_false, if_false]
      rw [← hs]; exact hr
    · rw [hiff, elements_eq_slice a, elements_eq_slice b, ← hs]
      exact ⟨fun h => ⟨rfl, h⟩, fun h => h.2⟩
  · refine ⟨false, ?_, ?_⟩
    · simp only [operator_eq, GetSize, hs, if_false]
    · constructor
      · intro h; cases h
      · intro h; exact absurd h.1 hs

/-- What `operator<` computes on well-formed vectors. -/
theorem operator_lt_spec [LinearOrder T] (a b : SimpleVector T) (ha : Inv a) (hb : Inv b) :
    ∃ r, operator_lt a b = .ok r ∧
      (r = true ↔ List.Lex (fun x y : T => x < y) (elements a) (elements b)) := by
  obtain ⟨r, hr, hiff⟩ := std_lexicographical_compare_loop_spec a.arr_ b.arr_ a.size_ b.size_ 0 0
    (by have := ha.1; have := ha.2; omega) (by have := hb.1; have := hb.2; omega)
  refine ⟨r, ?_, ?_⟩
  · simp only [operator_lt, std_lexicographical_compare, begin_, end_, Nat.zero_add,
      Nat.zero_le, and_self, if_true, Nat.sub_zero, hr]
  · rw [hiff, elements_eq_slice a, elements_eq_slice b]

theorem negate_ok (r : Except Fault Bool) (x : Bool) (h : r = .ok x) :
    negate r = .ok (!x) := by
  rw [h]; rfl

/-- Under a linear order, "not `ys` before `xs`" is "`xs` before `ys`, or equal". -/
theorem not_lex_iff [LinearOrder T] (xs ys : List T) :
    ¬ List.Lex (fun x y : T => x < y) ys xs ↔
      (List.Lex (fun x y : T => x < y) xs ys ∨ xs = ys) := by
  constructor
  · intro h
    rcases (List.Lex.isTrichotomous (fun x y : T => x < y)).trichotomous xs ys with h1 | h1 | h1
    · exact Or.inl h1
    · exact Or.inr h1
    · exact absurd h1 h
  · intro h h2
    rcases h with h1 | h1
    · exact (List.Lex.isAsymm (fun x y : T => x < y)).asymm _ _ h1 h2
    · subst h1
      exact (List.Lex.isAsymm (fun x y : T => x < y)).asymm _ _ h2 h2

/-! ## Copy, move, sized construction, PopBack, growth -/

theorem elements_of_full (s : SimpleVector T) (h : Inv s) (hf : s.capacity_ = s.size_) :
    elements s = s.arr_ := by
  unfold elements
  rw [← hf, h.2, List.take_length]

/-- What the copy constructor builds from a well-formed vector: a vector that
owns `size` slots, the elements of the source. -/
theorem copy_ctor_full [Inhabited T] (other : SimpleVector T) (fresh : Nat → T)
    (h : Inv other) :
    ∃ c : SimpleVector T, SimpleVector.copy_ctor other fresh = .ok c ∧ Inv c ∧
      c.size_ = other.size_ ∧ c.capacity_ = other.size_ ∧ elements c = elements other ∧
      c.arr_ = elements other := by
  obtain ⟨c, e, i, z, cp, l⟩ := copy_ctor_spec other fresh h
  refine ⟨c, e, i, z, cp, l, ?_⟩
  rw [← l, elements_of_full c i (by omega)]

theorem copy_assign_spec [Inhabited T] (this rhs : SimpleVector T) (fresh : Nat → T) :
    copy_assign this rhs false fresh = SimpleVector.copy_ctor rhs fresh := by
  simp only [copy_assign, Bool.false_eq_true, if_false, swap]
  cases SimpleVector.copy_ctor rhs fresh with
  | ok tmp => rfl
  | error e => rfl

/-- The copy as a value.  For a well-formed vector `src`, the copy constructor
and the copy assignment from `src` (to any other vector `dst`) return a vector with
the size and the elements of `src` in order and with capacity equal to the
size of `src`, not to its capacity.  Both read `src` through a const
reference and leave it as it is; the copy owns a buffer of its own, a new
allocation of exactly `size` slots holding the elements of `src`, so an
operation on the copy has only the copy's buffer to change.  Assigning a
vector to itself leaves it as it is. -/
theorem copy_as_value [Inhabited T] (src dst : SimpleVector T) (fresh : Nat → T) (h : Inv src) :
    (∃ c, SimpleVector.copy_ctor src fresh = .ok c ∧ GetSize c = GetSize src ∧
      elements c = elements src ∧ GetCapacity c = GetSize src ∧ c.arr_ = elements src ∧
      Inv c) ∧
    (∃ c, copy_assign dst src false fresh = .ok c ∧ GetSize c = GetSize src ∧
      elements c = elements src ∧ GetCapacity c = GetSize src ∧ c.arr_ = elements src ∧
      Inv c) ∧
    copy_assign src src true fresh = .ok src := by
  obtain ⟨c, e, i, z, cp, l, a⟩ := copy_ctor_full src fresh h
  refine ⟨⟨c, e, z, l, cp, a, i⟩, ⟨c, ?_, z, l, cp, a, i⟩, rfl⟩
  rw [copy_assign_spec, e]

/-- Claim C12. After move construction from `src`, and after move assignment
of `src` into any other vector `dst`, the destination has the elements, the
size and the capacity `src` had, and `src` is empty: `GetSize() == 0` and
`GetCapacity() == 0`. -/
theorem C12_move (src dst : SimpleVector T) :
    (elements (SimpleVector.move_ctor src).1 = elements src ∧
      GetSize (SimpleVector.move_ctor src).1 = GetSize src ∧
      GetCapacity (SimpleVector.move_ctor src).1 = GetCapacity src ∧
      GetSize (SimpleVector.move_ctor src).2 = 0 ∧
      GetCapacity (SimpleVector.move_ctor src).2 = 0 ∧
      elements (SimpleVector.move_ctor src).2 = []) ∧
    (elements (move_assign dst src false).1 = elements src ∧
      GetSize (move_assign dst src false).1 = GetSize src ∧
      GetCapacity (move_assign dst src false).1 = GetCapacity src ∧
      GetSize (move_assign dst src false).2 = 0 ∧
      GetCapacity (move_assign dst src false).2 = 0 ∧
      elements (move_assign dst src false).2 = []) :=
  ⟨⟨rfl, rfl, rfl, rfl, rfl, rfl⟩, ⟨rfl, rfl, rfl, rfl, rfl, rfl⟩⟩

/-- Claim C15. For every `n` the vector constructed with size `n` has
`GetSize() == GetCapacity() == n` and its `n` elements are the default value;
for every `n` and `v` the vector constructed with `(n, v)` has
`GetSize() == GetCapacity() == n` and its `n` elements are `v`; whatever the
new storage holds. -/
theorem C15_sized_ctors [Inhabited T] (n : Nat) (v : T) (fresh : Nat → T) :
    (∃ s, SimpleVector.size_ctor n fresh = .ok s ∧ GetSize s = n ∧ GetCapacity s = n ∧
      (elements s).length = n ∧ ∀ x ∈ elements s, x = default) ∧
    (∃ s, SimpleVector.fill_ctor n v fresh = .ok s ∧ GetSize s = n ∧ GetCapacity s = n ∧
      (elements s).length = n ∧ ∀ x ∈ elements s, x = v) := by
  obtain ⟨s1, e1, _, z1, c1, l1⟩ := size_ctor_spec (T := T) n fresh
  obtain ⟨s2, e2, _, z2, c2, l2⟩ := fill_ctor_spec n v fresh
  refine ⟨⟨s1, e1, z1, c1, ?_, ?_⟩, ⟨s2, e2, z2, c2, ?_, ?_⟩⟩
  · rw [l1, List.length_replicate]
  · intro x hx
    rw [l1] at hx
    exact List.eq_of_mem_replicate hx
  · rw [l2, List.length_replicate]
  · intro x hx
    rw [l2] at hx
    exact List.eq_of_mem_replicate hx

theorem PopBack_elements (s : SimpleVector T) :
    elements ({ s with size_ := s.size_ - 1 } : SimpleVector T) =
      (elements s).take (s.size_ - 1) := by
  unfold elements
  show List.take (s.size_ - 1) s.arr_ = _
  rw [List.take_take, Nat.min_eq_left (Nat.sub_le _ _)]

theorem PopBack_ok (s : SimpleVector T) (hne : s.size_ ≠ 0) :
    PopBack s = .ok { s with size_ := s.size_ - 1 } := by
  simp [PopBack, IsEmpty, hne]

theorem PopBack_assert (s : SimpleVector T) (he : s.size_ = 0) :
    PopBack s = .error .assertion := by
  simp [PopBack, IsEmpty, he]

/-- Claim C16. The assertion of `PopBack` passes exactly when the vector is
not empty: the call ends in the failed assertion exactly when the size is 0.
On a vector of size `s > 0` the call
leaves size `s - 1`, the capacity as it was and the first `s - 1` elements as
they were.  On a vector of size 3, three calls return and reach size 0, and
the fourth call fails the assertion. -/
theorem C16_PopBack (s : SimpleVector T) :
    (PopBack s = .error .assertion ↔ GetSize s = 0) ∧
    (GetSize s ≠ 0 → ∃ s1, PopBack s = .ok s1 ∧ GetSize s1 = GetSize s - 1 ∧
      GetCapacity s1 = GetCapacity s ∧ elements s1 = (elements s).take (GetSize s - 1)) ∧
    (GetSize s = 3 → ∃ s1 s2 s3, PopBack s = .ok s1 ∧ PopBack s1 = .ok s2 ∧
      PopBack s2 = .ok s3 ∧ GetSize s3 = 0 ∧ PopBack s3 = .error .assertion) := by
  refine ⟨?_, ?_, ?_⟩
  · constructor
    · intro h
      by_cases hz : s.size_ = 0
      · exact hz
      · rw [PopBack_ok s hz] at h
        cases h
    · intro h
      exact PopBack_assert s h
  · intro hne
    exact ⟨_, PopBack_ok s hne, rfl, rfl, PopBack_elements s⟩
  · intro h3
    have h3 : s.size_ = 3 := h3
    refine ⟨{ s with size_ := 2 }, { s with size_ := 1 }, { s with size_ := 0 }, ?_, ?_, ?_,
      rfl, ?_⟩
    · rw [PopBack_ok s (by omega), h3]
    · exact (PopBack_ok _ (by show (2 : Nat) ≠ 0; omega)).trans rfl
    · exact (PopBack_ok _ (by show (1 : Nat) ≠ 0; omega)).trans rfl
    · exact PopBack_assert _ rfl

/-- The growth of the capacity where the call returns.  When `PushBack` or
`Insert` has to grow a well-formed vector
(`size + 1 > capacity`), the capacity `GetNewCapacity` asks for is greater
than the old one, at least twice the old one, and exactly 1 when the old one
is 0; the `Reserve` call both make returns with that capacity; `PushBack`
returns with that capacity; so does every call of `Insert` that returns, and
`Insert` returns here whenever the old capacity is not 0 (from capacity 0 the
shift after the growth to 1 leaves the buffer). -/
theorem growth_where_defined (s : SimpleVector T) (p : Nat) (v : T) (fresh : Nat → T)
    (h : Inv s) (hg : GetSize s + 1 > GetCapacity s) (hp : p ≤ GetSize s) :
    (GetCapacity s < GetNewCapacity s (GetSize s + 1) ∧
      2 * GetCapacity s ≤ GetNewCapacity s (GetSize s + 1) ∧
      (GetCapacity s = 0 → GetNewCapacity s (GetSize s + 1) = 1)) ∧
    (∃ s1, Reserve s (GetNewCapacity s (GetSize s + 1)) fresh = .ok s1 ∧
      GetCapacity s1 = GetNewCapacity s (GetSize s + 1)) ∧
    (∃ s1, PushBack s v fresh = .ok s1 ∧
      GetCapacity s1 = GetNewCapacity s (GetSize s + 1)) ∧
    (∀ r, Insert s p v fresh = .ok r →
      GetCapacity r.1 = GetNewCapacity s (GetSize s + 1)) ∧
    (GetCapacity s ≠ 0 → ∃ r, Insert s p v fresh = .ok r) := by
  have hg2 : s.size_ + 1 > s.capacity_ := hg
  have hle := h.1
  obtain ⟨hc1, hc2⟩ := GetNewCapacity_grow s h hg2
  refine ⟨⟨hc1, ?_, ?_⟩, ?_, ?_, ?_, ?_⟩
  · show 2 * s.capacity_ ≤ GetNewCapacity s (s.size_ + 1)
    unfold GetNewCapacity
    by_cases h0 : s.capacity_ ≠ 0
    · rw [if_pos h0, if_pos hg2]; omega
    · rw [if_neg h0]; omega
  · intro h0
    have h0 : s.capacity_ = 0 := h0
    show GetNewCapacity s (s.size_ + 1) = 1
    unfold GetNewCapacity
    rw [if_neg (by omega)]
  · obtain ⟨b, hb, _, _⟩ := Reserve_grow s (GetNewCapacity s (s.size_ + 1)) fresh h hc1
    exact ⟨_, hb, rfl⟩
  · obtain ⟨s1, e1, _, _, c1, _⟩ := PushBack_spec s v fresh h
    exact ⟨s1, e1, c1⟩
  · intro r hr
    by_cases hc : s.capacity_ = 0 ∨ s.capacity_ = s.size_ + 1
    · rw [Insert_fault s p v fresh h hp hc] at hr
      cases hr
    · obtain ⟨s1, e1, _, _, c1, _⟩ := Insert_spec s p v fresh h hp hc
      rw [e1] at hr
      cases hr
      exact c1
  · intro h0
    have h0 : s.capacity_ ≠ 0 := h0
    obtain ⟨s1, e1, _⟩ := Insert_spec s p v fresh h hp (by omega)
    exact ⟨_, e1⟩

/-- Claim C13. On well-formed vectors over a linearly ordered element type
the six operators return, and their results are those of comparing the
element sequences at `[0, size)`: `a == b` iff the sizes are equal and the
sequences are equal, `a != b` iff not, `a < b` iff the sequence of `a` comes
lexicographically before that of `b` (a proper prefix comes first), `a > b`
iff `b < a`, `a <= b` iff `a < b` or the sequences are equal, `a >= b` iff
`b <= a`.  Neither the capacity nor a slot beyond the size enters. -/
theorem C13_comparisons [LinearOrder T] (a b : SimpleVector T) (ha : Inv a) (hb : Inv b) :
    (∃ r, operator_eq a b = .ok r ∧
      (r = true ↔ (GetSize a = GetSize b ∧ elements a = elements b))) ∧
    (∃ r, operator_ne a b = .ok r ∧
      (r = true ↔ ¬ (GetSize a = GetSize b ∧ elements a = elements b))) ∧
    (∃ r, operator_lt a b = .ok r ∧
      (r = true ↔ List.Lex (fun x y : T => x < y) (elements a) (elements b))) ∧
    (∃ r, operator_gt a b = .ok r ∧
      (r = true ↔ List.Lex (fun x y : T => x < y) (elements b) (elements a))) ∧
    (∃ r, operator_le a b = .ok r ∧
      (r = true ↔ (List.Lex (fun x y : T => x < y) (elements a) (elements b) ∨
        elements a = elements b))) ∧
    (∃ r, operator_ge a b = .ok r ∧
      (r = true ↔ (List.Lex (fun x y : T => x < y) (elements b) (elements a) ∨
        elements b = elements a))) := by
  obtain ⟨re, he, ie⟩ := operator_eq_spec a b ha hb
  obtain ⟨rl, hl, il⟩ := operator_lt_spec a b ha hb
  obtain ⟨rg, hg, ig⟩ := operator_lt_spec b a hb ha
  refine ⟨⟨re, he, ie⟩, ⟨!re, negate_ok _ _ he, ?_⟩, ⟨rl, hl, il⟩, ⟨rg, hg, ig⟩,
    ⟨!rg, negate_ok _ _ hg, ?_⟩, ⟨!rl, negate_ok _ _ hl, ?_⟩⟩
  · show (!re) = true ↔ ¬ (a.size_ = b.size_ ∧ elements a = elements b)
    rw [← ie]; cases re <;> simp
  · rw [← not_lex_iff, ← ig]; cases rg <;> simp
  · rw [← not_lex_iff, ← il]; cases rl <;> simp

/-- Claim C13 at the vectors of the spec: `{1,2,3} == {1,2,3}`,
`{1,2} < {1,2,3}` and `{2} > {1,9,9}`. -/
theorem C13_comparisons_witness :
    Inv ex_12 ∧ Inv ex_123 ∧
    operator_eq ex_123 ex_123 = .ok true ∧
    operator_lt ex_12 ex_123 = .ok true ∧
    operator_gt ex_2 ex_199 = .ok true ∧
    List.Lex (fun x y : Nat => x < y) (elements ex_12) (elements ex_123) := by
  obtain ⟨_, _, ⟨r, hr, hiff⟩, _⟩ := C13_comparisons ex_12 ex_123 (by decide) (by decide)
  have e : operator_lt ex_12 ex_123 = .ok true := rfl
  rw [e] at hr
  cases hr
  exact ⟨by decide, by decide, rfl, rfl, rfl, hiff.mp rfl⟩

/-! ## Slots beyond the size are not observed -/

theorem GetNewCapacity_congr (a b : SimpleVector T) (n : Nat)
    (hc : a.capacity_ = b.capacity_) : GetNewCapacity a n = GetNewCapacity b n := by
  unfold GetNewCapacity
  rw [hc]

theorem PushBack_same (a b : SimpleVector T) (v : T) (f1 f2 : Nat → T)
    (ha : Inv a) (hb : Inv b) (hab : SameLogical a b) :
    SameOutcome (PushBack a v f1) (PushBack b v f2) := by
  obtain ⟨hs, hc, he⟩ := hab
  obtain ⟨a1, ea, _, za, ca, la⟩ := PushBack_spec a v f1 ha
  obtain ⟨b1, eb, _, zb, cb, lb⟩ := PushBack_spec b v f2 hb
  rw [ea, eb]
  refine ⟨by rw [za, zb, hs], ?_, by rw [la, lb, he]⟩
  rw [ca, cb, hs, GetNewCapacity_congr a b _ hc]

theorem Insert_same (a b : SimpleVector T) (p : Nat) (v : T) (f1 f2 : Nat → T)
    (ha : Inv a) (hb : Inv b) (hab : SameLogical a b) (hp : p ≤ a.size_) :
    SameOutcomeIt (Insert a p v f1) (Insert b p v f2) := by
  obtain ⟨hs, hc, he⟩ := hab
  by_cases hf : a.capacity_ = 0 ∨ a.capacity_ = a.size_ + 1
  · rw [Insert_fault a p v f1 ha hp hf,
      Insert_fault b p v f2 hb (by omega) (by rw [← hs, ← hc]; exact hf)]
    rfl
  · obtain ⟨a1, ea, _, za, ca, la⟩ := Insert_spec a p v f1 ha hp hf
    obtain ⟨b1, eb, _, zb, cb, lb⟩ :=
      Insert_spec b p v f2 hb (by omega) (by rw [← hs, ← hc]; exact hf)
    rw [ea, eb]
    refine ⟨⟨by rw [za, zb, hs], ?_, by rw [la, lb, he]⟩, rfl⟩
    show a1.capacity_ = b1.capacity_
    rw [ca, cb, hs, GetNewCapacity_congr a b _ hc]

theorem Erase_same (a b : SimpleVector T) (p : Nat)
    (ha : Inv a) (hb : Inv b) (hab : SameLogical a b) (hp : p < a.size_) :
    SameOutcomeIt (Erase a p) (Erase b p) := by
  obtain ⟨hs, hc, he⟩ := hab
  obtain ⟨a1, ea, _, za, ca, la⟩ := Erase_spec a p ha hp
  obtain ⟨b1, eb, _, zb, cb, lb⟩ := Erase_spec b p hb (by omega)
  rw [ea, eb]
  exact ⟨⟨by show a1.size_ = b1.size_; rw [za, zb, hs],
    by show a1.capacity_ = b1.capacity_; rw [ca, cb, hc], by rw [la, lb, he]⟩, rfl⟩

theorem PopBack_same (a b : SimpleVector T) (hab : SameLogical a b) :
    SameOutcome (PopBack a) (PopBack b) := by
  obtain ⟨hs, hc, he⟩ := hab
  by_cases hz : a.size_ = 0
  · rw [PopBack_assert a hz, PopBack_assert b (by omega)]
    rfl
  · rw [PopBack_ok a hz, PopBack_ok b (by omega)]
    refine ⟨by show a.size_ - 1 = b.size_ - 1; rw [hs], hc, ?_⟩
    rw [PopBack_elements, PopBack_elements, he, hs]

theorem Reserve_same (a b : SimpleVector T) (n : Nat) (f1 f2 : Nat → T)
    (ha : Inv a) (hb : Inv b) (hab : SameLogical a b) :
    SameOutcome (Reserve a n f1) (Reserve b n f2) := by
  obtain ⟨hs, hc, he⟩ := hab
  obtain ⟨a1, ea, _, za, ca, la, _⟩ := Reserve_spec a n f1 ha
  obtain ⟨b1, eb, _, zb, cb, lb, _⟩ := Reserve_spec b n f2 hb
  rw [ea, eb]
  exact ⟨by rw [za, zb, hs], by rw [ca, cb, hc], by rw [la, lb, he]⟩

theorem Resize_shrink_elements (s : SimpleVector T) (n : Nat) (hn : n ≤ s.size_) :
    elements ({ s with size_ := n } : SimpleVector T) = (elements s).take n := by
  unfold elements
  show List.take n s.arr_ = _
  rw [List.take_take, Nat.min_eq_left hn]

/-- What `Resize` to a size between size and capacity leaves when it stays
inside the buffer: the old elements followed by default values. -/
theorem Resize_within_elements [Inhabited T] (s : SimpleVector T) (n : Nat) (fresh : Nat → T)
    (h : Inv s) (h1 : s.size_ < n) (h2 : n ≤ s.capacity_) (h3 : s.size_ + n ≤ s.capacity_) :
    ∃ s1, Resize s n fresh = .ok s1 ∧ s1.size_ = n ∧ s1.capacity_ = s.capacity_ ∧
      elements s1 = elements s ++ List.replicate (n - s.size_) default := by
  obtain ⟨b, hb, hlen, hget⟩ := Resize_within s n fresh h h1 h2 h3
  have hlenE := elements_length s h
  refine ⟨_, hb, rfl, rfl, ?_⟩
  apply List.ext_getElem?
  intro i
  rw [elements_getElem?, List.getElem?_append, hlenE, elements_getElem?,
    List.getElem?_replicate]
  show (if i < n then b[i]? else none) = _
  rw [hget i]
  by_cases hi : i < s.size_
  · have e1 : ¬ (s.size_ ≤ i ∧ i < s.size_ + n) := by omega
    rw [if_pos (by omega), if_neg e1, if_pos hi, if_pos hi]
  · rw [if_neg hi]
    by_cases hn : i < n
    · have e1 : s.size_ ≤ i ∧ i < s.size_ + n := by omega
      rw [if_pos hn, if_pos e1, if_pos (by omega)]
    · rw [if_neg hn, if_neg (by omega)]

theorem Resize_same [Inhabited T] (a b : SimpleVector T) (n : Nat) (f1 f2 : Nat → T)
    (ha : Inv a) (hb : Inv b) (hab : SameLogical a b) (hn : n ≤ a.capacity_) :
    SameOutcome (Resize a n f1) (Resize b n f2) := by
  obtain ⟨hs, hc, he⟩ := hab
  by_cases h1 : n ≤ a.size_
  · rw [Resize_shrink a n f1 h1, Resize_shrink b n f2 (by omega)]
    refine ⟨rfl, hc, ?_⟩
    rw [Resize_shrink_elements a n h1, Resize_shrink_elements b n (by omega), he]
  · by_cases h3 : a.size_ + n ≤ a.capacity_
    · obtain ⟨a1, ea, za, ca, la⟩ :=
        Resize_within_elements a n f1 ha (by omega) hn h3
      obtain ⟨b1, eb, zb, cb, lb⟩ :=
        Resize_within_elements b n f2 hb (by omega) (by omega) (by omega)
      rw [ea, eb]
      exact ⟨by rw [za, zb], by rw [ca, cb, hc], by rw [la, lb, he, hs]⟩
    · rw [Resize_within_fault a n f1 ha (by omega) hn (by omega),
        Resize_within_fault b n f2 hb (by omega) (by omega) (by omega)]
      rfl

theorem At_elements (s : SimpleVector T) (i : Nat) (h : Inv s) :
    (At s i).1 = (match (elements s)[i]? with
      | some x => .ok x
      | none => .error .out_of_range) ∧ (At s i).2 = s := by
  rw [elements_getElem?]
  by_cases hi : i ≥ s.size_
  · have e : At s i = (.error .out_of_range, s) := by simp only [At, hi, if_true]
    rw [e, if_neg (by omega)]
    exact ⟨rfl, rfl⟩
  · have hlt : i < s.arr_.length := by have := h.1; have := h.2; omega
    have e : At s i = (.ok s.arr_[i], s) := by
      simp only [At, hi, if_false, ArrayPtr_get, List.getElem?_eq_getElem hlt]
    rw [e, if_pos (by omega), List.getElem?_eq_getElem hlt]
    exact ⟨rfl, rfl⟩

theorem At_same (a b : SimpleVector T) (i : Nat)
    (ha : Inv a) (hb : Inv b) (hab : SameLogical a b) :
    (At a i).1 = (At b i).1 ∧ SameLogical (At a i).2 (At b i).2 := by
  obtain ⟨ea, sa⟩ := At_elements a i ha
  obtain ⟨eb, sb⟩ := At_elements b i hb
  rw [ea, eb, sa, sb, hab.2.2]
  exact ⟨rfl, hab⟩

theorem operator_eq_same [DecidableEq T] (a b c d : SimpleVector T)
    (ha : Inv a) (hb : Inv b) (hc : Inv c) (hd : Inv d)
    (hab : SameLogical a b) (hcd : SameLogical c d) :
    operator_eq a c = operator_eq b d := by
  obtain ⟨r1, e1, i1⟩ := operator_eq_spec a c ha hc
  obtain ⟨r2, e2, i2⟩ := operator_eq_spec b d hb hd
  rw [e1, e2]
  congr 1
  rw [Bool.eq_iff_iff, i1, i2, hab.1, hab.2.2, hcd.1, hcd.2.2]

theorem operator_lt_same [LinearOrder T] (a b c d : SimpleVector T)
    (ha : Inv a) (hb : Inv b) (hc : Inv c) (hd : Inv d)
    (hab : SameLogical a b) (hcd : SameLogical c d) :
    operator_lt a c = operator_lt b d := by
  obtain ⟨r1, e1, i1⟩ := operator_lt_spec a c ha hc
  obtain ⟨r2, e2, i2⟩ := operator_lt_spec b d hb hd
  rw [e1, e2]
  congr 1
  rw [Bool.eq_iff_iff, i1, i2, hab.2.2, hcd.2.2]

theorem Clear_Resize [Inhabited T] (s : SimpleVector T) (n : Nat) (fresh : Nat → T)
    (h : Inv s) (hn : n ≤ s.capacity_) :
    ∃ s1, Resize (Clear s) n fresh = .ok s1 ∧ s1.size_ = n ∧
      s1.capacity_ = s.capacity_ ∧ elements s1 = List.replicate n default := by
  have hI : Inv (Clear s) := ⟨Nat.zero_le _, h.2⟩
  by_cases h0 : n = 0
  · subst h0
    refine ⟨_, Resize_shrink (Clear s) 0 fresh (Nat.zero_le _), rfl, rfl, ?_⟩
    rfl
  · obtain ⟨s1, e1, z1, c1, l1⟩ :=
      Resize_within_elements (Clear s) n fresh hI (by show 0 < n; omega) hn
        (by show 0 + n ≤ s.capacity_; omega)
    refine ⟨s1, e1, z1, c1, ?_⟩
    rw [l1]
    show List.take 0 s.arr_ ++ List.replicate (n - 0) default = _
    rw [List.take_zero, List.nil_append, Nat.sub_zero]

/-- Slots beyond the size where the calls return.  Let `a` and `b` be
well-formed vectors with the same size, the
same capacity and the same elements at `[0, size)`, whatever their slots at
`[size, capacity)` hold (and likewise `c` and `d`).  Then the same call on both
ends alike: `PushBack`, `Insert` at a position in `[0, size]`, `Erase` at an
element, `PopBack`, `Reserve` and `Resize` to at most the capacity either end
in the same fault on both or return the same iterator and leave vectors that
again have the same size, capacity and elements; `Clear` leaves such vectors;
`At` returns or throws the same and the six comparison operators return the
same.  And `Clear()` followed by `Resize(n)` with `n <= capacity` returns and
leaves `n` elements, all the default value. -/
theorem same_outcome_where_defined [LinearOrder T] [Inhabited T] (a b c d : SimpleVector T)
    (ha : Inv a) (hb : Inv b) (hc : Inv c) (hd : Inv d)
    (hab : SameLogical a b) (hcd : SameLogical c d) :
    (∀ v f1 f2, SameOutcome (PushBack a v f1) (PushBack b v f2)) ∧
    (∀ p v f1 f2, p ≤ GetSize a → SameOutcomeIt (Insert a p v f1) (Insert b p v f2)) ∧
    (∀ p, p < GetSize a → SameOutcomeIt (Erase a p) (Erase b p)) ∧
    SameOutcome (PopBack a) (PopBack b) ∧
    (∀ n f1 f2, SameOutcome (Reserve a n f1) (Reserve b n f2)) ∧
    (∀ n f1 f2, n ≤ GetCapacity a → SameOutcome (Resize a n f1) (Resize b n f2)) ∧
    SameLogical (Clear a) (Clear b) ∧
    (∀ i, (At a i).1 = (At b i).1 ∧ SameLogical (At a i).2 (At b i).2) ∧
    (operator_eq a c = operator_eq b d ∧ operator_ne a c = operator_ne b d ∧
      operator_lt a c = operator_lt b d ∧ operator_le a c = operator_le b d ∧
      operator_gt a c = operator_gt b d ∧ operator_ge a c = operator_ge b d) ∧
    (∀ n f, n ≤ GetCapacity a → ∃ s1, Resize (Clear a) n f = .ok s1 ∧ GetSize s1 = n ∧
      (elements s1).length = n ∧ ∀ x ∈ elements s1, x = default) := by
  refine ⟨fun v f1 f2 => PushBack_same a b v f1 f2 ha hb hab,
    fun p v f1 f2 hp => Insert_same a b p v f1 f2 ha hb hab hp,
    fun p hp => Erase_same a b p ha hb hab hp,
    PopBack_same a b hab,
    fun n f1 f2 => Reserve_same a b n f1 f2 ha hb hab,
    fun n f1 f2 hn => Resize_same a b n f1 f2 ha hb hab hn,
    ⟨rfl, hab.2.1, rfl⟩,
    fun i => At_same a b i ha hb hab, ?_, ?_⟩
  · have e1 := operator_eq_same a b c d ha hb hc hd hab hcd
    have e2 := operator_lt_same a b c d ha hb hc hd hab hcd
    have e3 := operator_lt_same c d a b hc hd ha hb hcd hab
    refine ⟨e1, ?_, e2, ?_, e3, ?_⟩
    · unfold operator_ne; rw [e1]
    · unfold operator_le; rw [e3]
    · unfold operator_ge; rw [e2]
  · intro n f hn
    obtain ⟨s1, e1, z1, _, l1⟩ := Clear_Resize a n f ha hn
    refine ⟨s1, e1, z1, ?_, ?_⟩
    · rw [l1, List.length_replicate]
    · intro x hx
      rw [l1] at hx
      exact List.eq_of_mem_replicate hx

/-! ## The later claims at concrete vectors -/

/-- The vector `ex_1_cap8` arises from `{1, 2, 3}` by `PushBack(4)` and
`Resize(1)`, the vector `ex_cap1` from the reserving constructor. -/
theorem ex_later_ctor :
    (match PushBack ex_123 4 ex_fresh with
     | .ok s => Resize s 1 ex_fresh
     | .error e => .error e) = .ok ex_1_cap8 ∧
    SimpleVector.reserve_ctor 1 ex_fresh = .ok ex_cap1 :=
  ⟨rfl, rfl⟩

/-- Claim C15 at `n = 2` and `v = 7`. -/
theorem C15_sized_ctors_witness :
    (∃ s, SimpleVector.size_ctor 2 ex_fresh = .ok s ∧ GetSize s = 2 ∧ GetCapacity s = 2 ∧
      (elements s).length = 2 ∧ ∀ x ∈ elements s, x = 0) ∧
    (∃ s, SimpleVector.fill_ctor 2 7 ex_fresh = .ok s ∧ GetSize s = 2 ∧ GetCapacity s = 2 ∧
      (elements s).length = 2 ∧ ∀ x ∈ elements s, x = 7) :=
  C15_sized_ctors 2 7 ex_fresh

/-- Claim C16 at `{1, 2, 3}`: three calls of `PopBack` return, the fourth
fails the assertion. -/
theorem C16_PopBack_witness :
    GetSize ex_123 = 3 ∧
    ∃ s1 s2 s3, PopBack ex_123 = .ok s1 ∧ PopBack s1 = .ok s2 ∧
      PopBack s2 = .ok s3 ∧ GetSize s3 = 0 ∧ PopBack s3 = .error .assertion :=
  ⟨rfl, (C16_PopBack ex_123).2.2 rfl⟩

/-- Claim C17 at failing inputs.
`SimpleVector<int> v{1, 2, 3}; v.PushBack(4); v.Resize(1); v.Resize(2);`
the last call runs `std::generate(begin() + size_, end() + new_size, ...)`,
that is over the slots 1 and 2, and slot 2 (not below the new size 2) changes
from 3 to 0, where the claim says no slot from the new size on is modified.
`SimpleVector<int> v(Reserve(2)); v.PushBack(5); v.Resize(2);` the range is
the slots 1 and 2, and slot 2 is outside the two-slot buffer, where the claim
says no slot from the capacity on is written. -/
theorem C17_Resize_within_failing_input :
    Resize ex_1_cap8 2 ex_fresh =
      .ok { arr_ := [1, 0, 0, 4, 104, 105, 106, 107], size_ := 2, capacity_ := 8 } ∧
    ex_1_cap8.arr_[2]? = some 3 ∧
    std_generate ex_5_cap2.arr_ (begin_ ex_5_cap2 + 1) (end_ ex_5_cap2 + 2) (default : Nat) =
      .error .out_of_bounds ∧
    Resize ex_5_cap2 2 ex_fresh = .error .out_of_bounds :=
  ⟨rfl, rfl, rfl, rfl⟩

/-- Claim C18 at failing inputs.
`SimpleVector<int> v{1, 2, 3}; v.Insert(v.end(), 7);` after `Reserve(8)` the
buffer is 1, 2, 3, 103, 104, ...; `std::move_backward(it, end(), end() + 1)`
runs after `++size_` and moves slot 3 to slot 4, so slot 4 (old size + 1)
changes from 104 to 103, where the claim says only slots in `[p, old size]`
are written.  `SimpleVector<int> v(Reserve(1)); v.Insert(v.begin(), 7);` the
same store goes to slot 1 of the one-slot buffer, where the claim says every
slot written lies inside the capacity. -/
theorem C18_Insert_shift_failing_input :
    Reserve ex_123 8 ex_fresh =
      .ok { arr_ := [1, 2, 3, 103, 104, 105, 106, 107], size_ := 3, capacity_ := 8 } ∧
    Insert ex_123 3 7 ex_fresh =
      .ok ({ arr_ := [1, 2, 3, 7, 103, 105, 106, 107], size_ := 4, capacity_ := 8 }, 3) ∧
    std_move_backward ex_cap1.arr_ 0 1 2 = .error .out_of_bounds ∧
    Insert ex_cap1 0 7 ex_fresh = .error .out_of_bounds :=
  ⟨rfl, rfl, rfl, rfl⟩

/-- Claim C19 at failing inputs.  The assertion of `operator[]` is
`index <= size_`.  On the vector `{5}` of capacity 2 the index 1 passes it and
the call returns slot 1, which is not an element; on `{1, 2, 3}` the index 3
passes it and the call reads slot 3 of the three-slot buffer; the claim says
every index that passes is below the size.  `At(3)` throws on `{1, 2, 3}`. -/
theorem C19_index_failing_input :
    index_op ex_5_cap2 1 = .ok 101 ∧ ¬ (1 < GetSize ex_5_cap2) ∧
    index_op ex_123 3 = .error .out_of_bounds ∧ ¬ (3 < GetSize ex_123) ∧
    (At ex_123 3).1 = .error .out_of_range :=
  ⟨rfl, by decide, rfl, by decide, rfl⟩

/-! ## Objects and the buffers they own -/

theorem buffer_at_append (h : List (List T)) (x : List T) (p : Option Nat)
    (hp : ∀ k, p = some k → k < h.length) :
    buffer_at (h ++ [x]) p = buffer_at h p := by
  cases p with
  | none => rfl
  | some k =>
    have hk : k < h.length := hp k rfl
    simp only [buffer_at]
    rw [List.getElem?_append_left hk]

theorem buffer_at_new (h : List (List T)) (x : List T) :
    buffer_at (h ++ [x]) (some h.length) = x := by
  simp [buffer_at]

theorem value_of_append (h : List (List T)) (x : List T) (o : VectorObject)
    (ho : Allocated h o) : value_of (h ++ [x]) o = value_of h o := by
  unfold value_of
  rw [buffer_at_append h x o.raw_ptr_ ho]

/-- A call on an object leaves every other allocated buffer as it is, and
the object keeps or gets an address that is not the other one. -/
theorem call_member_frame [Inhabited T] (h : List (List T)) (o : VectorObject)
    (m : Mutation T) (k : Nat) (hk : k < h.length) (hne : o.raw_ptr_ ≠ some k)
    (r : List (List T) × VectorObject) (hc : call_member h o m = .ok r) :
    r.1[k]? = h[k]? ∧ k < r.1.length ∧ r.2.raw_ptr_ ≠ some k := by
  unfold call_member at hc
  cases hm : m.apply (value_of h o) with
  | error e => rw [hm] at hc; cases hc
  | ok s1 =>
    rw [hm] at hc
    simp only at hc
    split at hc
    · cases hp : o.raw_ptr_ with
      | none =>
        rw [hp] at hc
        cases hc
        exact ⟨rfl, hk, by simp [hp]⟩
      | some j =>
        rw [hp] at hc
        cases hc
        have hjk : j ≠ k := by
          intro e; apply hne; rw [hp, e]
        refine ⟨?_, by simpa using hk, ?_⟩
        · show (h.set j s1.arr_)[k]? = h[k]?
          rw [List.getElem?_set, if_neg hjk]
        · show (some j : Option Nat) ≠ some k
          intro e; exact hjk (Option.some.inj e)
    · cases hc
      refine ⟨?_, ?_, ?_⟩
      · show (h ++ [s1.arr_])[k]? = h[k]?
        rw [List.getElem?_append_left hk]
      · show k < (h ++ [s1.arr_]).length
        rw [List.length_append]; omega
      · show (some h.length : Option Nat) ≠ some k
        intro e
        have := Option.some.inj e
        omega

theorem call_members_frame [Inhabited T] (ms : List (Mutation T)) :
    ∀ (h : List (List T)) (o : VectorObject) (k : Nat), k < h.length →
      o.raw_ptr_ ≠ some k → ∀ r, call_members h o ms = .ok r → r.1[k]? = h[k]? := by
  induction ms with
  | nil =>
    intro h o k _ _ r hr
    simp only [call_members] at hr
    cases hr
    rfl
  | cons m ms ih =>
    intro h o k hk hne r hr
    simp only [call_members] at hr
    cases hm : call_member h o m with
    | error e => rw [hm] at hr; cases hr
    | ok r1 =>
      rw [hm] at hr
      obtain ⟨e1, k1, n1⟩ := call_member_frame h o m k hk hne r1 hm
      rw [ih r1.1 r1.2 k k1 n1 r hr, e1]

/-- A sequence of calls on an object leaves the vector of every object that
holds another allocated address (or none) as it is. -/
theorem call_members_other [Inhabited T] (ms : List (Mutation T)) (h : List (List T))
    (o other : VectorObject) (hal : Allocated h other)
    (hne : o.raw_ptr_.isSome = true ∧ o.raw_ptr_ ≠ other.raw_ptr_ ∨ other.raw_ptr_ = none)
    (r : List (List T) × VectorObject) (hr : call_members h o ms = .ok r) :
    value_of r.1 other = value_of h other := by
  unfold value_of
  cases hp : other.raw_ptr_ with
  | none => rfl
  | some k =>
    have hk : k < h.length := hal k hp
    have hne2 : o.raw_ptr_ ≠ some k := by
      rcases hne with hne | hne
      · rw [← hp]; exact hne.2
      · rw [hp] at hne; cases hne
    simp only [buffer_at]
    rw [call_members_frame ms h o k hk hne2 r hr]

/-- What the copy constructor does on objects: the copy holds a new address,
its vector is the copy of the value, and the source is as before. -/
theorem copy_ctor_object_spec [Inhabited T] (h : List (List T)) (src : VectorObject)
    (fresh : Nat → T) (hsrc : Inv (value_of h src)) (hal : Allocated h src) :
    ∃ h1 c, copy_ctor_object h src fresh = .ok (h1, c) ∧
      c.raw_ptr_ = some h.length ∧ h1 = h ++ [buffer_at h1 c.raw_ptr_] ∧
      SimpleVector.copy_ctor (value_of h src) fresh = .ok (value_of h1 c) ∧
      value_of h1 src = value_of h src ∧ Allocated h1 src := by
  obtain ⟨c, e, _⟩ := copy_ctor_full (value_of h src) fresh hsrc
  refine ⟨h ++ [c.arr_],
    { raw_ptr_ := some h.length, size_ := c.size_, capacity_ := c.capacity_ }, ?_, rfl, ?_, ?_,
    value_of_append h c.arr_ src hal, ?_⟩
  · simp only [copy_ctor_object, e]
  · show h ++ [c.arr_] = h ++ [buffer_at (h ++ [c.arr_]) (some h.length)]
    rw [buffer_at_new]
  · rw [e]
    simp only [value_of, buffer_at_new]
  · intro k hk
    have := hal k hk
    rw [List.length_append]; omega

/-- The copy where the later calls return.  Let the object `src` hold a
well-formed vector.  The copy
constructor, and the copy assignment from `src` to another object `dst`,
return an object whose vector has the size and the elements of `src` in order
(so `copy == src`) and capacity equal to the size of `src`, not to its
capacity.  The vector of `src` is unchanged by the copy, and it is still
unchanged after any sequence of `Reserve`, `PushBack`, `Insert`, `PopBack`,
`Erase`, `Resize` and `Clear` calls on the copy that returns: the copy owns a
buffer at an address of its own.  Assigning an object to itself changes
nothing. -/
theorem copy_independent_where_defined [Inhabited T] [DecidableEq T] (h : List (List T)) (src dst : VectorObject)
    (fresh : Nat → T) (hsrc : Inv (value_of h src)) (hal : Allocated h src) :
    (∃ h1 c, copy_ctor_object h src fresh = .ok (h1, c) ∧
      GetSize (value_of h1 c) = GetSize (value_of h src) ∧
      elements (value_of h1 c) = elements (value_of h src) ∧
      GetCapacity (value_of h1 c) = GetSize (value_of h src) ∧
      operator_eq (value_of h1 c) (value_of h1 src) = .ok true ∧
      c.raw_ptr_ ≠ src.raw_ptr_ ∧
      value_of h1 src = value_of h src ∧
      ∀ ms r, call_members h1 c ms = .ok r → value_of r.1 src = value_of h src) ∧
    (∃ h1 c, copy_assign_object h dst src false fresh = .ok (h1, c) ∧
      GetSize (value_of h1 c) = GetSize (value_of h src) ∧
      elements (value_of h1 c) = elements (value_of h src) ∧
      GetCapacity (value_of h1 c) = GetSize (value_of h src) ∧
      operator_eq (value_of h1 c) (value_of h1 src) = .ok true ∧
      c.raw_ptr_ ≠ src.raw_ptr_ ∧
      value_of h1 src = value_of h src ∧
      ∀ ms r, call_members h1 c ms = .ok r → value_of r.1 src = value_of h src) ∧
    copy_assign_object h src src true fresh = .ok (h, src) := by
  have key : ∃ h1 c, copy_ctor_object h src fresh = .ok (h1, c) ∧
      GetSize (value_of h1 c) = GetSize (value_of h src) ∧
      elements (value_of h1 c) = elements (value_of h src) ∧
      GetCapacity (value_of h1 c) = GetSize (value_of h src) ∧
      operator_eq (value_of h1 c) (value_of h1 src) = .ok true ∧
      c.raw_ptr_ ≠ src.raw_ptr_ ∧
      value_of h1 src = value_of h src ∧
      ∀ ms r, call_members h1 c ms = .ok r → value_of r.1 src = value_of h src := by
    obtain ⟨h1, c, e, hp, _, hv, hs, hal1⟩ := copy_ctor_object_spec h src fresh hsrc hal
    obtain ⟨c1, e1, i1, z1, cp1, l1, _⟩ := copy_ctor_full (value_of h src) fresh hsrc
    rw [e1] at hv
    have hc : value_of h1 c = c1 := by cases hv; rfl
    have hne : c.raw_ptr_ ≠ src.raw_ptr_ := by
      intro heq
      have := hal h.length (by rw [← heq, hp])
      omega
    refine ⟨h1, c, e, by rw [hc]; exact z1, by rw [hc]; exact l1, by rw [hc]; exact cp1, ?_,
      hne, hs, ?_⟩
    · rw [hc, hs]
      obtain ⟨r, er, ir⟩ := operator_eq_spec c1 (value_of h src) i1 hsrc
      rw [er]
      congr 1
      exact ir.mpr ⟨z1, l1⟩
    · intro ms r hr
      rw [← hs]
      exact call_members_other ms h1 c src hal1 (Or.inl ⟨by rw [hp]; rfl, hne⟩) r hr
  exact ⟨key, key, rfl⟩

/-- The copy of the vector `{5}` of capacity 2, held by `ex_object`: the copy
has capacity 1 and an address of its own, and after `PushBack(4)` on the copy
the copy is `{5, 4}` and the source is as before. -/
theorem copy_independent_example :
    Inv (value_of ex_store ex_object) ∧ Allocated ex_store ex_object ∧
    ∃ h1 c, copy_ctor_object ex_store ex_object ex_fresh = .ok (h1, c) ∧
      GetCapacity (value_of h1 c) = 1 ∧
      value_of h1 ex_object = ex_5_cap2 ∧
      ∃ r, call_members h1 c [.push_back 4 ex_fresh] = .ok r ∧
        elements (value_of r.1 r.2) = [5, 4] ∧ value_of r.1 ex_object = ex_5_cap2 := by
  have hal : Allocated ex_store ex_object := by
    intro k hk
    cases hk
    decide
  have hinv : Inv (value_of ex_store ex_object) := by decide
  obtain ⟨⟨h1, c, e, _, _, hcap, _, _, hs, hind⟩, _, _⟩ :=
    copy_independent_where_defined ex_store ex_object ex_object ex_fresh hinv hal
  have e2 : copy_ctor_object ex_store ex_object ex_fresh =
      .ok ([[5, 101], [5]], { raw_ptr_ := some 1, size_ := 1, capacity_ := 1 }) := rfl
  rw [e2] at e
  cases e
  have e3 : call_members [[5, 101], [5]] { raw_ptr_ := some 1, size_ := 1, capacity_ := 1 }
      [.push_back 4 ex_fresh] =
      .ok ([[5, 101], [5], [5, 4, 102, 103]],
        { raw_ptr_ := some 2, size_ := 2, capacity_ := 4 }) := rfl
  exact ⟨hinv, hal, _, _, e2, hcap, hs, _, e3, rfl, hind _ _ e3⟩

/-- An object that held the address of `ex_object` instead of one of its own
would not be independent of it: `PushBack(4)` through it changes the vector
of `ex_object`. -/
theorem shared_buffer_is_changed :
    ∃ r, call_members ex_store ex_object [.push_back 4 ex_fresh] = .ok r ∧
      value_of r.1 ex_object ≠ value_of ex_store ex_object :=
  ⟨_, rfl, by decide⟩

/-- Claim C11 at a failing input.
`SimpleVector<int> src{1, 2, 3}; SimpleVector<int> copy(src); copy.PopBack();
copy.Insert(copy.begin(), 7);` the copy has the elements and the size of
`src`, capacity 3 and a buffer at an address of its own, and `src` is as
before; after `PopBack()` the copy has size 2 and capacity 3, so `Insert`
does not grow it and `std::move_backward(it, end(), end() + 1)`, run after
`++size_`, stores into slot 3 of the copy's three-slot buffer.  The store
leaves the storage the copy owns, so this mutation of the copy has no defined
effect, where the claim says any later mutation of the copy leaves `src`
unchanged. -/
theorem C11_copy_failing_input :
    Inv (value_of ex_store_123 ex_object_123) ∧
    copy_ctor_object ex_store_123 ex_object_123 ex_fresh =
      .ok ([[1, 2, 3], [1, 2, 3]], { raw_ptr_ := some 1, size_ := 3, capacity_ := 3 }) ∧
    value_of [[1, 2, 3], [1, 2, 3]] ex_object_123 = value_of ex_store_123 ex_object_123 ∧
    call_members [[1, 2, 3], [1, 2, 3]] { raw_ptr_ := some 1, size_ := 3, capacity_ := 3 }
      [.pop_back] =
      .ok ([[1, 2, 3], [1, 2, 3]], { raw_ptr_ := some 1, size_ := 2, capacity_ := 3 }) ∧
    std_move_backward [1, 2, 3] 0 3 4 = .error .out_of_bounds ∧
    call_members [[1, 2, 3], [1, 2, 3]] { raw_ptr_ := some 1, size_ := 3, capacity_ := 3 }
      [.pop_back, .insert 0 7 ex_fresh] = .error .out_of_bounds ∧
    (¬ ∃ r, call_members [[1, 2, 3], [1, 2, 3]]
        { raw_ptr_ := some 1, size_ := 3, capacity_ := 3 }
        [.pop_back, .insert 0 7 ex_fresh] = .ok r ∧
      value_of r.1 ex_object_123 = value_of ex_store_123 ex_object_123) := by
  refine ⟨by decide, rfl, rfl, rfl, rfl, rfl, ?_⟩
  rintro ⟨r, hr, _⟩
  have e : call_members [[1, 2, 3], [1, 2, 3]]
      { raw_ptr_ := some 1, size_ := 3, capacity_ := 3 }
      [.pop_back, .insert 0 7 ex_fresh] = .error .out_of_bounds := rfl
  rw [e] at hr
  cases hr

/-- Claim C4 at failing inputs.  `SimpleVector<int> v; v.Insert(v.begin(), 7);`
the default-constructed vector satisfies the invariant and `begin()` is a
position in `[begin(), end()]`, but `MakeIterToInsert` stores into slot 1 of
the one-slot buffer it has just reserved, so no call of `Insert` returns a
vector, with or without the invariant.  `SimpleVector<int> w{1, 2};
w.PopBack(); w.Resize(2);` the vector has size 1 and capacity 2, and `Resize`
stores into slot 2 of the two-slot buffer.  The claim says every mutating
operation called within its precondition preserves the invariant. -/
theorem C4_invariant_failing_input :
    Inv (SimpleVector.default_ctor : SimpleVector Nat) ∧
    0 ≤ GetSize (SimpleVector.default_ctor : SimpleVector Nat) ∧
    MakeIterToInsert (SimpleVector.default_ctor : SimpleVector Nat) 0 ex_fresh =
      .error .out_of_bounds ∧
    (¬ ∃ r, Insert (SimpleVector.default_ctor : SimpleVector Nat) 0 7 ex_fresh = .ok r ∧
      Inv r.1) ∧
    PopBack ex_12 = .ok ex_12_popped ∧ Inv ex_12_popped ∧
    Resize ex_12_popped 2 ex_fresh = .error .out_of_bounds ∧
    (¬ ∃ r, Resize ex_12_popped 2 ex_fresh = .ok r ∧ Inv r) := by
  refine ⟨by decide, Nat.le_refl _, rfl, ?_, rfl, by decide, rfl, ?_⟩
  · rintro ⟨r, hr, _⟩
    have e : Insert (SimpleVector.default_ctor : SimpleVector Nat) 0 7 ex_fresh =
        .error .out_of_bounds := rfl
    rw [e] at hr
    cases hr
  · rintro ⟨r, hr, _⟩
    have e : Resize ex_12_popped 2 ex_fresh = .error .out_of_bounds := rfl
    rw [e] at hr
    cases hr

/-- Claim C14 at a failing input.  `SimpleVector<int> v; v.Insert(v.begin(), 9);`
the capacity is 0, so `Insert` has to grow; `GetNewCapacity` asks for 1 and
`Reserve(1)` sets the capacity to 1, but the shift that follows stores into
slot 1 of the one-slot buffer, so the call returns no vector whose capacity
could be 1.  `PushBack(9)` on the same vector returns with capacity 1.  The
claim (and the comment above `Insert`) say the capacity becomes exactly 1. -/
theorem C14_growth_failing_input :
    GetSize (SimpleVector.default_ctor : SimpleVector Nat) + 1 >
      GetCapacity (SimpleVector.default_ctor : SimpleVector Nat) ∧
    GetNewCapacity (SimpleVector.default_ctor : SimpleVector Nat) 1 = 1 ∧
    PushBack (SimpleVector.default_ctor : SimpleVector Nat) 9 ex_fresh =
      .ok { arr_ := [9], size_ := 1, capacity_ := 1 } ∧
    Insert (SimpleVector.default_ctor : SimpleVector Nat) 0 9 ex_fresh =
      .error .out_of_bounds ∧
    (¬ ∃ r, Insert (SimpleVector.default_ctor : SimpleVector Nat) 0 9 ex_fresh = .ok r ∧
      GetCapacity r.1 = 1) := by
  refine ⟨by decide, rfl, rfl, rfl, ?_⟩
  rintro ⟨r, hr, _⟩
  have e : Insert (SimpleVector.default_ctor : SimpleVector Nat) 0 9 ex_fresh =
      .error .out_of_bounds := rfl
  rw [e] at hr
  cases hr

/-- Claim C20 at a failing input.  The vectors `ex_5_cap2` and
`ex_5_cap2_stale` are `{5}` with capacity 2 and differ only in the slot beyond
the size (101 and 999).  `Insert(begin(), 7)` on either runs
`std::move_backward(it, end(), end() + 1)` after `++size_`: its first step
reads slot 1, the stale slot, and stores it into slot 2, outside the two-slot
buffer, so neither call returns; `Resize(2)` on either stores into slot 2 as
well.  The claim says the two calls yield equal return values and equal
vectors. -/
theorem C20_stale_slots_failing_input :
    Inv ex_5_cap2 ∧ Inv ex_5_cap2_stale ∧ SameLogical ex_5_cap2 ex_5_cap2_stale ∧
    ArrayPtr_get ex_5_cap2.arr_ 1 = .ok 101 ∧
    ArrayPtr_get ex_5_cap2_stale.arr_ 1 = .ok 999 ∧
    ArrayPtr_set ex_5_cap2.arr_ 2 101 = .error .out_of_bounds ∧
    ArrayPtr_set ex_5_cap2_stale.arr_ 2 999 = .error .out_of_bounds ∧
    Insert ex_5_cap2 0 7 ex_fresh = .error .out_of_bounds ∧
    Insert ex_5_cap2_stale 0 7 ex_fresh = .error .out_of_bounds ∧
    Resize ex_5_cap2 2 ex_fresh = .error .out_of_bounds ∧
    Resize ex_5_cap2_stale 2 ex_fresh = .error .out_of_bounds ∧
    (¬ ∃ ra rb, Insert ex_5_cap2 0 7 ex_fresh = .ok ra ∧
      Insert ex_5_cap2_stale 0 7 ex_fresh = .ok rb ∧ ra.2 = rb.2 ∧ SameLogical ra.1 rb.1) := by
  refine ⟨by decide, by decide, ⟨rfl, rfl, rfl⟩, rfl, rfl, rfl, rfl, rfl, rfl, rfl, rfl, ?_⟩
  rintro ⟨ra, rb, hra, _⟩
  have e : Insert ex_5_cap2 0 7 ex_fresh = .error .out_of_bounds := rfl
  rw [e] at hra
  cases hra

end SimpleVec
